import Mathlib

set_option maxHeartbeats 1000000

/- Verification of the GridRush core (src/main.js): the grid model, the A*
   pathfinder (findPath), path validation and repair (validatePath), level
   generation (generateGrid / generateLevel) and movement resolution
   (isValidMove, handleCollision, handleMovement, restartGame).

   Embedding conventions:
   * JS numbers used as integers are embedded as `Int`.
   * `gameState.grid` is a gridSize × gridSize array of 0/1 accessed as
     `grid[y][x]`; it is embedded as a total function `Int → Int → Nat`
     applied as `grid y x`; every access in the source is bounds-checked
     before use, so only the in-bounds part of the function is relevant.
   * `gameState.visitedTiles` is a JS `Set` of strings, each the key
     `` `${x},${y}` `` of a coordinate pair; since the key encoding is
     injective on integer pairs, it is embedded as a list of pairs
     queried by membership.
   * `Math.random()`-driven choices are passed in as explicit parameters,
     universally quantified in the theorems ("for every outcome of the
     random choices"): the goal-resampling loop of generateGrid receives
     the list of sampled candidates, and the maze-generator step
     (generateSimpleMaze / generateComplexMaze, which only write randomly
     chosen wall patterns into the grid) is abstracted by the arbitrary
     grid `mazeResult` it leaves behind.
   * Unbounded loops (the A* main loop, the corridor-carving while loops,
     the goal resampling loop) are embedded with explicit fuel or with the
     exact iteration count; comments at each definition justify the bound. -/

namespace GridRush

/-- GAME_CONFIG.gridSize: size of the grid (10 × 10). -/
def gridSize : Int := 10

/-- GAME_CONFIG.initialLives. -/
def initialLives : Int := 3

/-- GAME_CONFIG.initialScore. -/
def initialScore : Int := 1000

/-- GAME_CONFIG.stepPenalty: points deducted per step. -/
def stepPenalty : Int := 10

/-- GAME_CONFIG.deathPenalty: points deducted for losing a life. -/
def deathPenalty : Int := 100

/-- A coordinate pair, as the JS point objects `{ x, y }`. -/
structure Point where
  x : Int
  y : Int
deriving DecidableEq, Repr

/-- The grid: `grid y x` is the cell `grid[y][x]`, 0 = open, 1 = wall. -/
abbrev Grid := Int → Int → Nat

/-- `grid[y][x] = v` on a functional grid. -/
def setCell (g : Grid) (y x : Int) (v : Nat) : Grid :=
  fun b a => if b = y ∧ a = x then v else g b a

/-- Cell (x, y) lies inside the 10 × 10 grid. -/
abbrev inBounds (x y : Int) : Prop :=
  0 ≤ x ∧ x < gridSize ∧ 0 ≤ y ∧ y < gridSize

/-- Cell (x, y) is inside the grid and not a wall. -/
abbrev OpenCell (grid : Grid) (p : Point) : Prop :=
  inBounds p.x p.y ∧ grid p.y p.x ≠ 1

/-- One orthogonal unit step between two cells (4-connected adjacency). -/
abbrev adjacent (p q : Point) : Prop :=
  (q.x - p.x).natAbs + (q.y - p.y).natAbs = 1

/-- Manhattan distance between two cells. -/
def manh (p q : Point) : Nat :=
  (p.x - q.x).natAbs + (p.y - q.y).natAbs

/-- A* search node from findPath: position, g/h/f scores and the back
reference to the parent node used to reconstruct the path. -/
inductive Node where
  | mk (x y g h f : Int) (parent : Option Node)

namespace Node

def x : Node → Int
  | mk a _ _ _ _ _ => a

def y : Node → Int
  | mk _ b _ _ _ _ => b

def g : Node → Int
  | mk _ _ c _ _ _ => c

def h : Node → Int
  | mk _ _ _ d _ _ => d

def f : Node → Int
  | mk _ _ _ _ e _ => e

def parent : Node → Option Node
  | mk _ _ _ _ _ p => p

/-- The position of a node as a Point. -/
def pos (n : Node) : Point := ⟨n.x, n.y⟩

end Node

/-- The lowest-f scan of findPath: starting from the first element, a node
replaces the current best only on a strictly smaller f, so the first node
with the minimal f wins; the chosen node is removed from the open set
(`openSet.splice(lowestIndex, 1)`), the relative order of the others is
kept. Returns (chosen node, remaining open set). -/
def pickLowest : Node → List Node → Node × List Node
  | c, [] => (c, [])
  | c, n :: rest =>
    if n.f < c.f then
      let r := pickLowest n rest
      (r.1, c :: r.2)
    else
      let r := pickLowest c rest
      (r.1, n :: r.2)

/-- The linear scan of findPath over the open set for a neighbor at
(nx, ny): if a node with these coordinates is found and the new g score is
strictly smaller, that node's g, f and parent are overwritten in place (h
is left untouched); the scan stops at the first match.  Returns the
updated open set and the `inOpenSet` flag. -/
def tryUpdate : List Node → Int → Int → Int → Int → Node → List Node × Bool
  | [], _, _, _, _, _ => ([], false)
  | n :: rest, nx, ny, g2, f2, cur =>
    if n.x = nx ∧ n.y = ny then
      (if g2 < n.g then Node.mk nx ny g2 n.h f2 (some cur) :: rest
       else n :: rest, true)
    else
      let r := tryUpdate rest nx ny g2 f2 cur
      (n :: r.1, r.2)

/-- One iteration of findPath's neighbor loop for direction (dx, dy):
bounds check, wall/visited check, score computation, then either an
in-place update of the matching open-set node or a push of a fresh node. -/
def processNeighbor (grid : Grid) (endX endY : Int) (cur : Node)
    (visited : Int → Int → Bool) (openSet : List Node) (dx dy : Int) :
    List Node :=
  let nx := cur.x + dx
  let ny := cur.y + dy
  if nx < 0 ∨ nx ≥ gridSize ∨ ny < 0 ∨ ny ≥ gridSize then openSet
  else if grid ny nx = 1 ∨ visited ny nx = true then openSet
  else
    let g2 := cur.g + 1
    let h2 : Int := ((nx - endX).natAbs + (ny - endY).natAbs : Nat)
    let f2 := g2 + h2
    let r := tryUpdate openSet nx ny g2 f2 cur
    if r.2 then r.1 else r.1 ++ [Node.mk nx ny g2 h2 f2 (some cur)]

/-- findPath's path reconstruction: follow parent links back to the start,
collecting positions (current node first); the source then reverses. -/
def collectPath : Node → List Point
  | .mk x y _ _ _ none => [⟨x, y⟩]
  | .mk x y _ _ _ (some p) => ⟨x, y⟩ :: collectPath p

/-- The directions checked by findPath, in source order:
right, left, down, up. -/
def neighborDirs : List (Int × Int) := [(1, 0), (-1, 0), (0, 1), (0, -1)]

/-- The main `while (openSet.length > 0)` loop of findPath.  Each iteration
pops the first node with the lowest f, returns the reconstructed path if it
is the goal, otherwise marks it visited and processes its four neighbors.
Fuel: every iteration marks one more unvisited cell visited, and only the
start cell and in-bounds cells ever enter the open set, so the loop runs at
most gridSize² + 1 iterations before the open set empties; the fuel used by
`findPath` below is therefore never exhausted and the embedding agrees with
the unbounded source loop. -/
def findPathLoop (grid : Grid) (endX endY : Int) :
    Nat → List Node → (Int → Int → Bool) → List Point
  | 0, _, _ => []
  | _ + 1, [], _ => []
  | fuel + 1, o :: os, visited =>
    let r := pickLowest o os
    let cur := r.1
    if cur.x = endX ∧ cur.y = endY then (collectPath cur).reverse
    else
      let visited2 : Int → Int → Bool :=
        fun b a => if b = cur.y ∧ a = cur.x then true else visited b a
      let openSet2 := neighborDirs.foldl
        (fun os d => processNeighbor grid endX endY cur visited2 os d.1 d.2)
        r.2
      findPathLoop grid endX endY fuel openSet2 visited2

/-- src/main.js findPath: A* over the 4-connected grid with Manhattan
heuristic, cost 1 per step.  The initial node carries g = h = f = 0 and no
parent, exactly as in the source; the source's `closedSet` array is only
ever pushed to, never read, and is omitted.  Returns the path from start to
goal (inclusive), or [] if the open set empties. -/
def findPath (grid : Grid) (startX startY endX endY : Int) : List Point :=
  findPathLoop grid endX endY (gridSize.toNat * gridSize.toNat + 1)
    [Node.mk startX startY 0 0 0 none] (fun _ _ => false)

/-- The horizontal carving loop of validatePath:
`while (x !== endX) { grid[startY][x] = 0; x += dx; }`.
With dx = (endX > startX ? 1 : -1) the loop runs exactly
(endX − startX).natAbs iterations, which is the fuel passed below. -/
def carveH : Grid → Int → Int → Int → Nat → Grid
  | g, _, _, _, 0 => g
  | g, x, y0, dx, n + 1 => carveH (setCell g y0 x 0) (x + dx) y0 dx n

/-- The vertical carving loop of validatePath:
`while (y !== endY) { grid[y][endX] = 0; y += dy; }`, run for exactly
(endY − startY).natAbs iterations. -/
def carveV : Grid → Int → Int → Int → Nat → Grid
  | g, _, _, _, 0 => g
  | g, y, x0, dy, n + 1 => carveV (setCell g y x0 0) (y + dy) x0 dy n

/-- src/main.js validatePath: run findPath once more; if it returns an
empty path, carve the L-shaped fallback corridor (horizontal run on the
start row, then vertical run on the goal column, then clear the goal
cell).  Returns the resulting grid. -/
def validatePath (grid : Grid) (startX startY endX endY : Int) : Grid :=
  if (findPath grid startX startY endX endY).length = 0 then
    let dx : Int := if endX > startX then 1 else -1
    let dy : Int := if endY > startY then 1 else -1
    let g1 := carveH grid startX startY dx (endX - startX).natAbs
    let g2 := carveV g1 startY endX dy (endY - startY).natAbs
    setCell g2 endY endX 0
  else grid

/-- Start position used by generateGrid: startX = 0. -/
def startX : Int := 0

/-- Start position used by generateGrid: startY = 0. -/
def startY : Int := 0

/-- minDistance in generateGrid: Math.floor(size * 0.6) = 6 for size 10. -/
def minDistance : Int := 6

/-- The goal-resampling loop of generateGrid for levels ≥ 5:
`x = Math.floor(Math.random() * (size - 2)) + 1` draws an integer in
[1, size − 2]; each raw draw is modelled as a pair in Fin 8 × Fin 8
(Fin (size − 2)).  The loop keeps drawing until the Manhattan distance
from the start is at least minDistance; the unbounded retry is modelled by
recursion on the list of draws, `none` meaning the supplied draws were
exhausted before the loop exited. -/
def pickGoalLoop : List (Fin 8 × Fin 8) → Option Point
  | [] => none
  | (a, b) :: rest =>
    let x : Int := (a.val : Int) + 1
    let y : Int := (b.val : Int) + 1
    if minDistance ≤ (x - startX).natAbs + (y - startY).natAbs then
      some ⟨x, y⟩
    else pickGoalLoop rest

/-- The goal-position policy of generateGrid: fixed positions for levels
1–4, the resampling loop for every other level. -/
def goalForLevel (level : Int) (draws : List (Fin 8 × Fin 8)) :
    Option Point :=
  if level = 1 then some ⟨4, 4⟩
  else if level = 2 then some ⟨gridSize - 2, 2⟩
  else if level = 3 then some ⟨2, gridSize - 2⟩
  else if level = 4 then some ⟨gridSize - 3, gridSize - 3⟩
  else pickGoalLoop draws

/-- The tail of generateGrid after the maze generator ran: the start and
goal cells are forced open, then validatePath repairs the grid.
`mazeResult` is the grid left behind by generateSimpleMaze /
generateComplexMaze; those generators only write random wall patterns, and
every theorem quantifies over all their possible outcomes by quantifying
over `mazeResult`. -/
def generateGridCore (goal : Point) (mazeResult : Grid) : Grid :=
  let g2 := setCell (setCell mazeResult startY startX 0) goal.y goal.x 0
  validatePath g2 startX startY goal.x goal.y

/-- src/main.js generateGrid: choose the goal for the level, run the
level's maze generator (abstracted by its outcome `mazeResult`), force the
start and goal cells open, and repair with validatePath.  Returns the
final grid and the goal, or `none` if the goal-resampling draws ran out. -/
def generateGrid (level : Int) (draws : List (Fin 8 × Fin 8))
    (mazeResult : Grid) : Option (Grid × Point) :=
  match goalForLevel level draws with
  | none => none
  | some goal => some (generateGridCore goal mazeResult, goal)

/-- The movement directions fed into handleMovement. -/
inductive Dir where
  | up
  | down
  | left
  | right
deriving DecidableEq, Repr

/-- The candidate position computed by handleMovement's switch. -/
def stepDir (p : Point) : Dir → Point
  | .up => ⟨p.x, p.y - 1⟩
  | .down => ⟨p.x, p.y + 1⟩
  | .left => ⟨p.x - 1, p.y⟩
  | .right => ⟨p.x + 1, p.y⟩

/-- The mutable gameState fields the core logic reads and writes.
Rendering-only fields (projectiles, enemies, lastMoveTime, handDetected,
debugMode) are not referenced by the verified operations and are
omitted. -/
structure GameState where
  score : Int
  lives : Int
  level : Int
  isGameOver : Bool
  isPlaying : Bool
  grid : Grid
  visitedTiles : List (Int × Int)
  playerPosition : Point
  goalPosition : Point

/-- src/main.js gameOver(): mark the game over and stop play (the DOM
overlay updates are rendering-only). -/
def gameOver (s : GameState) : GameState :=
  { s with isGameOver := true, isPlaying := false }

/-- src/main.js handleCollision: decrement lives, apply the death penalty
to the score, and transition to game over when lives reach 0 or below.
The visual red flash is rendering-only. -/
def handleCollision (s : GameState) : GameState :=
  let s2 := { s with lives := s.lives - 1, score := s.score - deathPenalty }
  if s2.lives ≤ 0 then gameOver s2 else s2

/-- src/main.js isValidMove: bounds check, wall check (with the collision
side effect), and — from level 2 onward — the visited-tile check.  Since
handleCollision mutates gameState, the embedding returns the updated state
alongside the boolean. -/
def isValidMove (s : GameState) (x y : Int) : Bool × GameState :=
  if x < 0 ∨ y < 0 ∨ x ≥ gridSize ∨ y ≥ gridSize then (false, s)
  else if s.grid y x = 1 then (false, handleCollision s)
  else if 2 ≤ s.level ∧ (x, y) ∈ s.visitedTiles then (false, s)
  else (true, s)

/-- src/main.js generateLevel, with the random draws of generateGrid
passed explicitly: reset the per-level state, generate the new grid and
goal, place the player at (0,0) and mark the start tile visited.
3D-object creation and the DOM messages are rendering-only. -/
def generateLevel (draws : List (Fin 8 × Fin 8)) (mazeResult : Grid)
    (s : GameState) : Option GameState :=
  match generateGrid s.level draws mazeResult with
  | none => none
  | some (g, goal) =>
    some { s with grid := g, goalPosition := goal,
                  playerPosition := ⟨0, 0⟩,
                  visitedTiles := [(0, 0)] }

/-- src/main.js handleLevelComplete: increment the level, then generate
the next level. -/
def handleLevelComplete (draws : List (Fin 8 × Fin 8)) (mazeResult : Grid)
    (s : GameState) : Option GameState :=
  generateLevel draws mazeResult { s with level := s.level + 1 }

/-- src/main.js handleMovement: ignore input when the game is over or not
playing; otherwise compute the candidate cell, validate it, and on
acceptance apply the step penalty, move the player, mark the tile visited
and check for level completion.  `draws`/`mazeResult` supply the random
outcome of the regeneration triggered on level completion; `none` can only
arise from exhausted goal-resampling draws there. -/
def handleMovement (draws : List (Fin 8 × Fin 8)) (mazeResult : Grid)
    (s : GameState) (dir : Dir) : Option GameState :=
  if s.isGameOver = true ∨ s.isPlaying = false then some s
  else
    let np := stepDir s.playerPosition dir
    let r := isValidMove s np.x np.y
    if r.1 then
      let s2 := { r.2 with score := r.2.score - stepPenalty,
                           playerPosition := np,
                           visitedTiles := (np.x, np.y) :: r.2.visitedTiles }
      if np.x = s2.goalPosition.x ∧ np.y = s2.goalPosition.y then
        handleLevelComplete draws mazeResult s2
      else some s2
    else some r.2

/-- A sequence of direction events fed one at a time into handleMovement,
each with its own regeneration outcome. -/
def applyEvents (draws : List (Fin 8 × Fin 8)) (mazeResult : Grid)
    (s : GameState) : List Dir → Option GameState
  | [] => some s
  | d :: ds =>
    match handleMovement draws mazeResult s d with
    | none => none
    | some s2 => applyEvents draws mazeResult s2 ds

/-- src/main.js restartGame: reset score, lives, level, the visited set
and the player position, mark the game as playing, and generate a fresh
level 1. -/
def restartGame (draws : List (Fin 8 × Fin 8)) (mazeResult : Grid)
    (s : GameState) : Option GameState :=
  generateLevel draws mazeResult
    { s with isPlaying := true, isGameOver := false,
             score := initialScore, lives := initialLives, level := 1,
             visitedTiles := [], playerPosition := ⟨0, 0⟩ }

/- ----------------------------------------------------------------
   Specification-side definitions used to state and prove properties
   of the pathfinder. -/

/-- `ReachN grid p q n`: there is a walk of exactly n orthogonal unit
steps from p to q all of whose cells (endpoints included) are open and in
bounds. -/
inductive ReachN (grid : Grid) : Point → Point → Nat → Prop where
  | refl (p : Point) (hp : OpenCell grid p) : ReachN grid p p 0
  | cons {p q r : Point} {n : Nat} (hp : OpenCell grid p)
      (hadj : adjacent p q) (hr : ReachN grid q r n) :
      ReachN grid p r (n + 1)

/-- p can reach q through open cells. -/
def Reachable (grid : Grid) (p q : Point) : Prop :=
  ∃ n, ReachN grid p q n

/-- Graph distance between open cells (junk value 0 when unreachable). -/
noncomputable def gdist (grid : Grid) (p q : Point) : Nat :=
  sInf { n | ReachN grid p q n }

/-- Well-formedness of an A* node as built by findPath: the root is the
initial start node (g = h = f = 0, no parent), and every other node
extends its parent by one step onto an open in-bounds cell, with
g = parent.g + 1, h the Manhattan distance to the goal, and f = g + h. -/
inductive GoodNode (grid : Grid) (start goal : Point) : Node → Prop where
  | root : GoodNode grid start goal (Node.mk start.x start.y 0 0 0 none)
  | child {p : Node} (hp : GoodNode grid start goal p) {x y : Int}
      (hadj : adjacent p.pos ⟨x, y⟩) (hopen : OpenCell grid ⟨x, y⟩) :
      GoodNode grid start goal
        (Node.mk x y (p.g + 1) ((manh ⟨x, y⟩ goal : Nat) : Int)
          (p.g + 1 + ((manh ⟨x, y⟩ goal : Nat) : Int)) (some p))

/-- The cells written by validatePath's fallback corridor, for the
direction increments dx, dy computed by the source: the horizontal run on
row startY from startX toward endX (endX excluded), the vertical run on
column endX from startY toward endY (endY excluded), and the goal cell
itself. -/
def OnCorridor (sx sy ex ey x y : Int) : Prop :=
  (y = sy ∧ ∃ k : Nat, k < (ex - sx).natAbs ∧
      x = sx + (if ex > sx then 1 else -1) * k) ∨
  (x = ex ∧ ∃ k : Nat, k < (ey - sy).natAbs ∧
      y = sy + (if ey > sy then 1 else -1) * k) ∨
  (x = ex ∧ y = ey)

/-- Cell w is marked visited or is represented by an open-set node. -/
def CoveredAt (openSet : List Node) (visited : Int → Int → Bool)
    (w : Point) : Prop :=
  visited w.y w.x = true ∨ ∃ n ∈ openSet, n.pos = w

/-- Cell w is marked visited or is represented by an open-set node whose
g score is at most b. -/
def CoveredG (openSet : List Node) (visited : Int → Int → Bool)
    (w : Point) (b : Int) : Prop :=
  visited w.y w.x = true ∨ ∃ n ∈ openSet, n.pos = w ∧ n.g ≤ b

/-- Invariants of findPath's main loop used for soundness and
completeness: every open-set node is well formed; open-set coordinates
are pairwise distinct, unvisited and (apart from the start node) in
bounds; the goal cell is never marked visited (popping it returns
instead); the start is visited or still on the open set with g = 0; every
open in-bounds neighbor of a visited cell is visited or on the open set;
and every visited cell is reachable from the start. -/
structure LoopInv (grid : Grid) (start goal : Point)
    (openSet : List Node) (visited : Int → Int → Bool) : Prop where
  sound : ∀ n ∈ openSet, GoodNode grid start goal n
  nodup : (openSet.map Node.pos).Nodup
  unvis : ∀ n ∈ openSet, visited n.y n.x = false
  inb : ∀ n ∈ openSet, inBounds n.x n.y
  goalUnvis : visited goal.y goal.x = false
  startWit : visited start.y start.x = true ∨
    ∃ n ∈ openSet, n.pos = start ∧ n.g = 0
  frontier : ∀ v w : Point, visited v.y v.x = true → adjacent v w →
    OpenCell grid w → CoveredAt openSet visited w
  visReach : ∀ v : Point, visited v.y v.x = true → Reachable grid start v

/-- The additional invariant needed for optimality of the returned path:
frontier nodes carry a g score at most one more than the graph distance
to the visited cell they border. -/
structure FullInv (grid : Grid) (start goal : Point)
    (openSet : List Node) (visited : Int → Int → Bool)
    extends LoopInv grid start goal openSet visited : Prop where
  frontierG : ∀ v w : Point, visited v.y v.x = true → adjacent v w →
    OpenCell grid w →
      CoveredG openSet visited w ((gdist grid start v : Int) + 1)

/-- The in-bounds cells of the grid as a finite set of (x, y) pairs. -/
def cellFinset : Finset (Int × Int) :=
  Finset.Icc 0 (gridSize - 1) ×ˢ Finset.Icc 0 (gridSize - 1)

/-- The number of in-bounds cells not yet marked visited. -/
def unvisCount (visited : Int → Int → Bool) : Nat :=
  (cellFinset.filter (fun c => visited c.2 c.1 = false)).card

/-- The all-open grid (a grid containing no walls). -/
def emptyGrid : Grid := fun _ _ => 0

/- ----------------------------------------------------------------
   Theorems.  First, basic facts about the search-node primitives. -/

@[simp] theorem Node.x_mk (a b c d e : Int) (p : Option Node) :
    (Node.mk a b c d e p).x = a := rfl

@[simp] theorem Node.y_mk (a b c d e : Int) (p : Option Node) :
    (Node.mk a b c d e p).y = b := rfl

@[simp] theorem Node.g_mk (a b c d e : Int) (p : Option Node) :
    (Node.mk a b c d e p).g = c := rfl

@[simp] theorem Node.h_mk (a b c d e : Int) (p : Option Node) :
    (Node.mk a b c d e p).h = d := rfl

@[simp] theorem Node.f_mk (a b c d e : Int) (p : Option Node) :
    (Node.mk a b c d e p).f = e := rfl

@[simp] theorem Node.parent_mk (a b c d e : Int) (p : Option Node) :
    (Node.mk a b c d e p).parent = p := rfl

@[simp] theorem Node.pos_mk (a b c d e : Int) (p : Option Node) :
    (Node.mk a b c d e p).pos = ⟨a, b⟩ := rfl

theorem pickLowest_perm (c : Node) (l : List Node) :
    List.Perm ((pickLowest c l).1 :: (pickLowest c l).2) (c :: l) := by
  induction l generalizing c with
  | nil => simp [pickLowest]
  | cons n rest ih =>
    by_cases h : n.f < c.f
    · simp only [pickLowest, if_pos h]
      exact (List.Perm.swap c _ _).trans ((ih n).cons c)
    · simp only [pickLowest, if_neg h]
      exact (List.Perm.swap n _ _).trans
        (((ih c).cons n).trans (List.Perm.swap c n rest))

theorem pickLowest_min (c : Node) (l : List Node) :
    ∀ m ∈ c :: l, (pickLowest c l).1.f ≤ m.f := by
  induction l generalizing c with
  | nil =>
    intro m hm
    simp only [List.mem_cons, List.not_mem_nil, or_false] at hm
    subst hm
    simp [pickLowest]
  | cons n rest ih =>
    intro m hm
    simp only [List.mem_cons] at hm
    by_cases h : n.f < c.f
    · simp only [pickLowest, if_pos h]
      rcases hm with h1 | h1 | h1
      · rw [h1]; exact le_trans (ih n n (by simp)) (le_of_lt h)
      · rw [h1]; exact ih n n (by simp)
      · exact ih n m (by simp [h1])
    · simp only [pickLowest, if_neg h]
      rcases hm with h1 | h1 | h1
      · rw [h1]; exact ih c c (by simp)
      · rw [h1]; exact le_trans (ih c c (by simp)) (le_of_not_lt h)
      · exact ih c m (by simp [h1])

theorem pickLowest_mem (c : Node) (l : List Node) :
    (pickLowest c l).1 ∈ c :: l :=
  (pickLowest_perm c l).mem_iff.mp (by simp)

theorem pickLowest_rest_subset (c : Node) (l : List Node) :
    ∀ m ∈ (pickLowest c l).2, m ∈ c :: l := by
  intro m hm
  exact (pickLowest_perm c l).mem_iff.mp (by simp [hm])

theorem tryUpdate_coords (l : List Node) (nx ny g2 f2 : Int) (cur : Node) :
    (tryUpdate l nx ny g2 f2 cur).1.map Node.pos = l.map Node.pos := by
  induction l with
  | nil => rfl
  | cons n rest ih =>
    by_cases h : n.x = nx ∧ n.y = ny
    · simp only [tryUpdate, if_pos h]
      by_cases h2 : g2 < n.g
      · simp only [if_pos h2, List.map_cons]
        simp [Node.pos, h.1, h.2]
      · simp [if_neg h2]
    · simp only [tryUpdate, if_neg h, List.map_cons, ih]

theorem tryUpdate_found (l : List Node) (nx ny g2 f2 : Int) (cur : Node) :
    (tryUpdate l nx ny g2 f2 cur).2 = true ↔
      ∃ n ∈ l, n.x = nx ∧ n.y = ny := by
  induction l with
  | nil => simp [tryUpdate]
  | cons n rest ih =>
    by_cases h : n.x = nx ∧ n.y = ny
    · simp only [tryUpdate, if_pos h]
      constructor
      · intro _; exact ⟨n, by simp, h⟩
      · intro _
        by_cases h2 : g2 < n.g <;> simp [h2]
    · simp only [tryUpdate, if_neg h]
      rw [ih]
      constructor
      · rintro ⟨m, hm, hc⟩; exact ⟨m, by simp [hm], hc⟩
      · rintro ⟨m, hm, hc⟩
        rcases List.mem_cons.mp hm with rfl | hm
        · exact absurd hc h
        · exact ⟨m, hm, hc⟩

theorem tryUpdate_mem (l : List Node) (nx ny g2 f2 : Int) (cur : Node) :
    ∀ m ∈ (tryUpdate l nx ny g2 f2 cur).1,
      m ∈ l ∨ ∃ n ∈ l, n.x = nx ∧ n.y = ny ∧ g2 < n.g ∧
        m = Node.mk nx ny g2 n.h f2 (some cur) := by
  induction l with
  | nil => intro m hm; simp [tryUpdate] at hm
  | cons n rest ih =>
    intro m hm
    by_cases h : n.x = nx ∧ n.y = ny
    · simp only [tryUpdate, if_pos h] at hm
      by_cases h2 : g2 < n.g
      · simp only [if_pos h2] at hm
        rcases List.mem_cons.mp hm with rfl | hm
        · exact Or.inr ⟨n, by simp, h.1, h.2, h2, rfl⟩
        · exact Or.inl (by simp [hm])
      · simp only [if_neg h2] at hm
        exact Or.inl hm
    · simp only [tryUpdate, if_neg h] at hm
      rcases List.mem_cons.mp hm with rfl | hm
      · exact Or.inl (by simp)
      · rcases ih m hm with h3 | ⟨n2, hn2, hc⟩
        · exact Or.inl (by simp [h3])
        · exact Or.inr ⟨n2, by simp [hn2], hc⟩

theorem tryUpdate_exists (l : List Node) (nx ny g2 f2 : Int) (cur : Node) :
    ∀ n ∈ l, ∃ m ∈ (tryUpdate l nx ny g2 f2 cur).1,
      m.x = n.x ∧ m.y = n.y ∧ (m = n ∨ (m.g = g2 ∧ g2 < n.g)) := by
  induction l with
  | nil => intro n hn; simp at hn
  | cons n0 rest ih =>
    intro n hn
    by_cases h : n0.x = nx ∧ n0.y = ny
    · simp only [tryUpdate, if_pos h]
      by_cases h2 : g2 < n0.g
      · simp only [if_pos h2]
        rcases List.mem_cons.mp hn with rfl | hn
        · exact ⟨Node.mk nx ny g2 n.h f2 (some cur), by simp,
            by simp [h.1], by simp [h.2], Or.inr ⟨by simp, h2⟩⟩
        · exact ⟨n, by simp [hn], rfl, rfl, Or.inl rfl⟩
      · simp only [if_neg h2]
        exact ⟨n, by simp [hn], rfl, rfl, Or.inl rfl⟩
    · simp only [tryUpdate, if_neg h]
      rcases List.mem_cons.mp hn with rfl | hn
      · exact ⟨n, by simp, rfl, rfl, Or.inl rfl⟩
      · obtain ⟨m, hm, hc⟩ := ih n hn
        exact ⟨m, by simp [hm], hc⟩

theorem tryUpdate_at_target (l : List Node) (nx ny g2 f2 : Int)
    (cur : Node) (h : (tryUpdate l nx ny g2 f2 cur).2 = true) :
    ∃ m ∈ (tryUpdate l nx ny g2 f2 cur).1,
      m.x = nx ∧ m.y = ny ∧ m.g ≤ g2 := by
  induction l with
  | nil => simp [tryUpdate] at h
  | cons n rest ih =>
    by_cases hc : n.x = nx ∧ n.y = ny
    · simp only [tryUpdate, if_pos hc]
      by_cases h2 : g2 < n.g
      · exact ⟨Node.mk nx ny g2 n.h f2 (some cur), by simp [h2], by simp,
          by simp, by simp⟩
      · exact ⟨n, by simp [h2], hc.1, hc.2, by omega⟩
    · simp only [tryUpdate, if_neg hc] at h ⊢
      obtain ⟨m, hm, hp⟩ := ih h
      exact ⟨m, by simp [hm], hp⟩

/- Adjacency and the neighbor directions. -/

theorem adjacent_symm {p q : Point} (h : adjacent p q) : adjacent q p := by
  unfold adjacent at h ⊢
  omega

theorem adjacent_iff_dir (p q : Point) :
    adjacent p q ↔ ∃ d ∈ neighborDirs, q = ⟨p.x + d.1, p.y + d.2⟩ := by
  constructor
  · intro h
    unfold adjacent at h
    have hc : (q.x = p.x + 1 ∧ q.y = p.y) ∨ (q.x = p.x - 1 ∧ q.y = p.y) ∨
        (q.x = p.x ∧ q.y = p.y + 1) ∨ (q.x = p.x ∧ q.y = p.y - 1) := by
      omega
    rcases hc with ⟨h1, h2⟩ | ⟨h1, h2⟩ | ⟨h1, h2⟩ | ⟨h1, h2⟩
    · exact ⟨(1, 0), by simp [neighborDirs], by cases q; simp_all⟩
    · exact ⟨(-1, 0), by simp [neighborDirs], by cases q; simp_all; omega⟩
    · exact ⟨(0, 1), by simp [neighborDirs], by cases q; simp_all⟩
    · exact ⟨(0, -1), by simp [neighborDirs], by cases q; simp_all; omega⟩
  · rintro ⟨d, hd, rfl⟩
    fin_cases hd <;> simp [adjacent]

theorem adjacent_dir (p : Point) (d : Int × Int) (hd : d ∈ neighborDirs) :
    adjacent p ⟨p.x + d.1, p.y + d.2⟩ :=
  (adjacent_iff_dir p _).mpr ⟨d, hd, rfl⟩

/-- Manhattan triangle inequality. -/
theorem manh_triangle (p q r : Point) : manh p r ≤ manh p q + manh q r := by
  unfold manh
  omega

theorem manh_comm (p q : Point) : manh p q = manh q p := by
  unfold manh
  omega

theorem adjacent_manh {p q : Point} (h : adjacent p q) : manh p q = 1 := by
  unfold adjacent at h
  unfold manh
  omega

/- Walks through open cells and the graph distance. -/

theorem ReachN.open_left {grid : Grid} {p q : Point} {n : Nat}
    (h : ReachN grid p q n) : OpenCell grid p := by
  cases h with
  | refl _ hp => exact hp
  | cons hp _ _ => exact hp

theorem ReachN.open_right {grid : Grid} {p q : Point} {n : Nat}
    (h : ReachN grid p q n) : OpenCell grid q := by
  induction h with
  | refl _ hp => exact hp
  | cons _ _ _ ih => exact ih

theorem ReachN.snoc {grid : Grid} {p q r : Point} {n : Nat}
    (h : ReachN grid p q n) (hadj : adjacent q r) (hr : OpenCell grid r) :
    ReachN grid p r (n + 1) := by
  induction h with
  | refl _ hp => exact .cons hp hadj (.refl r hr)
  | cons hp hpq _ ih => exact .cons hp hpq (ih hadj)

theorem ReachN.manh_le {grid : Grid} {p q : Point} {n : Nat}
    (h : ReachN grid p q n) : manh p q ≤ n := by
  induction h with
  | refl p _ => simp [manh]
  | @cons p q r m _ hadj _ ih =>
    have h1 := manh_triangle p q r
    have h2 := adjacent_manh hadj
    omega

theorem ReachN.unsnoc {grid : Grid} {p r : Point} {n : Nat}
    (h : ReachN grid p r (n + 1)) :
    ∃ q, ReachN grid p q n ∧ adjacent q r ∧ OpenCell grid r := by
  induction n generalizing p with
  | zero =>
    cases h with
    | cons hp hadj hr =>
      cases hr with
      | refl _ hq => exact ⟨p, .refl p hp, hadj, hq⟩
  | succ m ih =>
    cases h with
    | cons hp hadj hr =>
      obtain ⟨w, hw, ha, ho⟩ := ih hr
      exact ⟨w, .cons hp hadj hw, ha, ho⟩

theorem gdist_le {grid : Grid} {p q : Point} {n : Nat}
    (h : ReachN grid p q n) : gdist grid p q ≤ n :=
  Nat.sInf_le h

theorem reach_gdist {grid : Grid} {p q : Point}
    (h : Reachable grid p q) : ReachN grid p q (gdist grid p q) :=
  Nat.sInf_mem h

theorem gdist_triangle_adj {grid : Grid} {p q r : Point}
    (h : Reachable grid p q) (hadj : adjacent q r)
    (hr : OpenCell grid r) : gdist grid p r ≤ gdist grid p q + 1 :=
  gdist_le ((reach_gdist h).snoc hadj hr)

theorem manh_le_gdist {grid : Grid} {p q : Point}
    (h : Reachable grid p q) : manh p q ≤ gdist grid p q :=
  (reach_gdist h).manh_le

/- Well-formed search nodes. -/

theorem GoodNode.g_nonneg {grid : Grid} {start goal : Point} {n : Node}
    (h : GoodNode grid start goal n) : 0 ≤ n.g := by
  induction h with
  | root => simp
  | child hp _ _ ih => simp; omega

theorem GoodNode.h_spec {grid : Grid} {start goal : Point} {n : Node}
    (h : GoodNode grid start goal n) :
    (n.h = ((manh n.pos goal : Nat) : Int) ∧ n.f = n.g + n.h) ∨
      (n.pos = start ∧ n.g = 0 ∧ n.h = 0 ∧ n.f = 0) := by
  cases h with
  | root => right; refine ⟨?_, rfl, rfl, rfl⟩; simp [Node.pos]
  | child hp hadj hopen => left; simp [Node.pos]

theorem GoodNode.h_nonneg {grid : Grid} {start goal : Point} {n : Node}
    (h : GoodNode grid start goal n) : 0 ≤ n.h := by
  rcases h.h_spec with ⟨h1, _⟩ | ⟨_, _, h1, _⟩ <;> simp [h1]

theorem GoodNode.f_eq {grid : Grid} {start goal : Point} {n : Node}
    (h : GoodNode grid start goal n) : n.f = n.g + n.h := by
  rcases h.h_spec with ⟨_, h1⟩ | ⟨_, h2, h3, h4⟩
  · exact h1
  · rw [h2, h3, h4]; rfl

theorem GoodNode.reach {grid : Grid} {start goal : Point} {n : Node}
    (hstart : OpenCell grid start) (h : GoodNode grid start goal n) :
    ReachN grid start n.pos n.g.toNat := by
  induction h with
  | root =>
    have : (⟨start.x, start.y⟩ : Point) = start := rfl
    simpa [Node.pos] using ReachN.refl start hstart
  | @child p hp x y hadj hopen ih =>
    have hg : ((p.g + 1).toNat) = p.g.toNat + 1 := by
      have := hp.g_nonneg
      omega
    simp only [Node.pos_mk, Node.g_mk, hg]
    exact ih.snoc hadj hopen

theorem GoodNode.pos_open_or_start {grid : Grid} {start goal : Point}
    {n : Node} (h : GoodNode grid start goal n) :
    OpenCell grid n.pos ∨ n.pos = start := by
  cases h with
  | root => right; simp [Node.pos]
  | child hp hadj hopen => left; simpa [Node.pos] using hopen

/- Path reconstruction. -/

theorem collectPath_ne_nil (n : Node) : collectPath n ≠ [] := by
  cases n with
  | mk x y g h f p => cases p <;> simp [collectPath]

theorem collectPath_head (n : Node) :
    (collectPath n).head? = some n.pos := by
  cases n with
  | mk x y g h f p => cases p <;> simp [collectPath, Node.pos]

theorem collectPath_length {grid : Grid} {start goal : Point} {n : Node}
    (h : GoodNode grid start goal n) :
    (collectPath n).length = n.g.toNat + 1 := by
  induction h with
  | root => simp [collectPath]
  | @child p hp x y hadj hopen ih =>
    have := hp.g_nonneg
    simp only [collectPath, List.length_cons, ih, Node.g_mk]
    omega

theorem collectPath_last {grid : Grid} {start goal : Point} {n : Node}
    (h : GoodNode grid start goal n) :
    (collectPath n).getLast? = some start := by
  induction h with
  | root =>
    have : (⟨start.x, start.y⟩ : Point) = start := rfl
    simp [collectPath, this]
  | @child p hp x y hadj hopen ih =>
    simp only [collectPath]
    obtain ⟨hd, tl, heq⟩ := List.exists_cons_of_ne_nil (collectPath_ne_nil p)
    rw [heq, List.getLast?_cons_cons, ← heq]
    exact ih

theorem collectPath_chain {grid : Grid} {start goal : Point} {n : Node}
    (h : GoodNode grid start goal n) :
    List.Chain' adjacent (collectPath n) := by
  induction h with
  | root => simp [collectPath]
  | @child p hp x y hadj hopen ih =>
    simp only [collectPath]
    rw [List.chain'_cons']
    refine ⟨?_, ih⟩
    intro b hb
    rw [collectPath_head p] at hb
    cases hb
    exact adjacent_symm hadj

theorem collectPath_open {grid : Grid} {start goal : Point} {n : Node}
    (h : GoodNode grid start goal n) :
    ∀ p ∈ (collectPath n).dropLast, OpenCell grid p := by
  induction h with
  | root => simp [collectPath]
  | @child p hp x y hadj hopen ih =>
    intro q hq
    simp only [collectPath] at hq
    rw [List.dropLast_cons_of_ne_nil (collectPath_ne_nil p)] at hq
    rcases List.mem_cons.mp hq with rfl | hq
    · exact hopen
    · exact ih q hq

/- Soundness of the expansion step and of the main loop. -/

theorem goodNode_step {grid : Grid} {start goal : Point} {cur : Node}
    (hcur : GoodNode grid start goal cur) {nx ny : Int}
    (hadj : adjacent cur.pos ⟨nx, ny⟩) (hopen : OpenCell grid ⟨nx, ny⟩) :
    GoodNode grid start goal
      (Node.mk nx ny (cur.g + 1)
        (((nx - goal.x).natAbs + (ny - goal.y).natAbs : Nat) : Int)
        (cur.g + 1 + (((nx - goal.x).natAbs + (ny - goal.y).natAbs : Nat) : Int))
        (some cur)) := by
  have : manh ⟨nx, ny⟩ goal = (nx - goal.x).natAbs + (ny - goal.y).natAbs := rfl
  have h2 := GoodNode.child hcur hadj hopen
  rw [this] at h2
  exact h2

theorem processNeighbor_sound {grid : Grid} {start goal : Point}
    {cur : Node} {visited : Int → Int → Bool} {os : List Node}
    (hos : ∀ n ∈ os, GoodNode grid start goal n)
    (hcur : GoodNode grid start goal cur)
    {d : Int × Int} (hd : d ∈ neighborDirs) :
    ∀ m ∈ processNeighbor grid goal.x goal.y cur visited os d.1 d.2,
      GoodNode grid start goal m := by
  intro m hm
  simp only [processNeighbor] at hm
  split at hm
  · exact hos m hm
  · rename_i hbounds
    split at hm
    · exact hos m hm
    · rename_i hwall
      have hadj : adjacent cur.pos ⟨cur.x + d.1, cur.y + d.2⟩ :=
        adjacent_dir cur.pos d hd
      have hopen : OpenCell grid ⟨cur.x + d.1, cur.y + d.2⟩ := by
        refine ⟨show inBounds (cur.x + d.1) (cur.y + d.2) from ?_, ?_⟩
        · unfold inBounds
          omega
        · show grid (cur.y + d.2) (cur.x + d.1) ≠ 1
          intro hc
          exact hwall (Or.inl hc)
      have hub : ∀ m2 ∈ (tryUpdate os (cur.x + d.1) (cur.y + d.2)
          (cur.g + 1)
          (cur.g + 1 + (((cur.x + d.1 - goal.x).natAbs +
            (cur.y + d.2 - goal.y).natAbs : Nat) : Int)) cur).1,
          GoodNode grid start goal m2 := by
        intro m2 hm2
        rcases tryUpdate_mem _ _ _ _ _ _ m2 hm2 with h3 | ⟨n, hn, hnx, hny, hlt, rfl⟩
        · exact hos m2 h3
        · rcases (hos n hn).h_spec with ⟨hh, _⟩ | ⟨_, hg0, _, _⟩
          · have hnpos : n.pos = ⟨cur.x + d.1, cur.y + d.2⟩ := by
              simp [Node.pos, hnx, hny]
            rw [hh, hnpos]
            exact goodNode_step hcur hadj hopen
          · have := hcur.g_nonneg
            omega
      split at hm
      · exact hub m hm
      · rcases List.mem_append.mp hm with h3 | h3
        · exact hub m h3
        · simp only [List.mem_singleton] at h3
          subst h3
          exact goodNode_step hcur hadj hopen

theorem expand_sound {grid : Grid} {start goal : Point} {cur : Node}
    {visited : Int → Int → Bool}
    (hcur : GoodNode grid start goal cur) :
    ∀ ds : List (Int × Int), (∀ d ∈ ds, d ∈ neighborDirs) →
      ∀ os : List Node, (∀ n ∈ os, GoodNode grid start goal n) →
      ∀ m ∈ ds.foldl
        (fun os d => processNeighbor grid goal.x goal.y cur visited os d.1 d.2)
        os, GoodNode grid start goal m := by
  intro ds
  induction ds with
  | nil => intro _ os hos m hm; exact hos m hm
  | cons d rest ih =>
    intro hds os hos m hm
    simp only [List.foldl_cons] at hm
    exact ih (fun d2 h2 => hds d2 (by simp [h2]))
      _ (processNeighbor_sound hos hcur (hds d (by simp))) m hm

theorem findPathLoop_sound {grid : Grid} {start goal : Point} :
    ∀ (fuel : Nat) (openSet : List Node) (visited : Int → Int → Bool),
      (∀ n ∈ openSet, GoodNode grid start goal n) →
      findPathLoop grid goal.x goal.y fuel openSet visited ≠ [] →
      ∃ cur, GoodNode grid start goal cur ∧ cur.pos = goal ∧
        findPathLoop grid goal.x goal.y fuel openSet visited =
          (collectPath cur).reverse := by
  intro fuel
  induction fuel with
  | zero => intro openSet visited _ hne; simp [findPathLoop] at hne
  | succ fuel ih =>
    intro openSet visited hos hne
    match openSet with
    | [] => simp [findPathLoop] at hne
    | o :: os =>
      simp only [findPathLoop] at hne ⊢
      set cur := (pickLowest o os).1 with hcur
      have hcurGood : GoodNode grid start goal cur :=
        hos _ (pickLowest_mem o os)
      by_cases hgoal : cur.x = goal.x ∧ cur.y = goal.y
      · refine ⟨cur, hcurGood, ?_, ?_⟩
        · cases goal
          simp [Node.pos, hgoal.1, hgoal.2]
        · simp only [if_pos hgoal]
      · simp only [if_neg hgoal] at hne ⊢
        exact ih _ _
          (expand_sound hcurGood neighborDirs (fun d h => h) _
            (fun n hn => hos n (pickLowest_rest_subset o os n hn)))
          hne

/-- Well-formedness of every non-empty path returned by findPath: it
starts at the start cell, ends at the goal cell, moves by orthogonal unit
steps, and every cell after the first is open and in bounds (the start
cell itself is never checked by the source). -/
theorem findPath_wellFormed {grid : Grid} {sx sy gx gy : Int}
    (hne : findPath grid sx sy gx gy ≠ []) :
    (findPath grid sx sy gx gy).head? = some ⟨sx, sy⟩ ∧
    (findPath grid sx sy gx gy).getLast? = some ⟨gx, gy⟩ ∧
    List.Chain' adjacent (findPath grid sx sy gx gy) ∧
    ∀ p ∈ (findPath grid sx sy gx gy).tail, OpenCell grid p := by
  have hstart : ∀ n ∈ [Node.mk sx sy 0 0 0 none],
      GoodNode grid ⟨sx, sy⟩ ⟨gx, gy⟩ n := by
    intro n hn
    simp only [List.mem_singleton] at hn
    subst hn
    exact GoodNode.root
  obtain ⟨cur, hgood, hpos, heq⟩ :=
    @findPathLoop_sound grid ⟨sx, sy⟩ ⟨gx, gy⟩ _ _ _ hstart hne
  have heq2 : findPath grid sx sy gx gy = (collectPath cur).reverse := heq
  rw [heq2]
  refine ⟨?_, ?_, ?_, ?_⟩
  · rw [List.head?_reverse]
    exact collectPath_last hgood
  · rw [List.getLast?_reverse, collectPath_head, hpos]
  · rw [List.chain'_reverse]
    exact (collectPath_chain hgood).imp (fun a b h => adjacent_symm h)
  · intro p hp
    rw [List.tail_reverse] at hp
    exact collectPath_open hgood p (List.mem_reverse.mp hp)

/- Covering lemmas for the expansion step: existing open-set
representatives survive processNeighbor (with a g score that can only
decrease), and the processed neighbor cell itself ends up covered. -/

theorem pos_eq_of_coords {m n : Node} (hx : m.x = n.x) (hy : m.y = n.y) :
    m.pos = n.pos := by
  simp [Node.pos, hx, hy]

theorem processNeighbor_at {grid : Grid} {ex ey : Int} {cur : Node}
    {visited : Int → Int → Bool} {os : List Node} {d : Int × Int}
    {w : Point} (h : ∃ n ∈ os, n.pos = w) :
    ∃ n ∈ processNeighbor grid ex ey cur visited os d.1 d.2, n.pos = w := by
  obtain ⟨n, hn, hpos⟩ := h
  simp only [processNeighbor]
  split
  · exact ⟨n, hn, hpos⟩
  · split
    · exact ⟨n, hn, hpos⟩
    · obtain ⟨m, hm, hx, hy, _⟩ := tryUpdate_exists os _ _ _ _ cur n hn
      split
      · exact ⟨m, hm, (pos_eq_of_coords hx hy).trans hpos⟩
      · exact ⟨m, List.mem_append.mpr (Or.inl hm),
          (pos_eq_of_coords hx hy).trans hpos⟩

theorem processNeighbor_covG {grid : Grid} {ex ey : Int} {cur : Node}
    {visited : Int → Int → Bool} {os : List Node} {d : Int × Int}
    {w : Point} {b : Int} (h : ∃ n ∈ os, n.pos = w ∧ n.g ≤ b) :
    ∃ n ∈ processNeighbor grid ex ey cur visited os d.1 d.2,
      n.pos = w ∧ n.g ≤ b := by
  obtain ⟨n, hn, hpos, hg⟩ := h
  simp only [processNeighbor]
  split
  · exact ⟨n, hn, hpos, hg⟩
  · split
    · exact ⟨n, hn, hpos, hg⟩
    · obtain ⟨m, hm, hx, hy, hc⟩ := tryUpdate_exists os _ _ _ _ cur n hn
      have hmg : m.g ≤ b := by
        rcases hc with rfl | ⟨h1, h2⟩
        · exact hg
        · omega
      split
      · exact ⟨m, hm, (pos_eq_of_coords hx hy).trans hpos, hmg⟩
      · exact ⟨m, List.mem_append.mpr (Or.inl hm),
          (pos_eq_of_coords hx hy).trans hpos, hmg⟩

theorem processNeighbor_covers_new {grid : Grid} {ex ey : Int}
    {cur : Node} {visited : Int → Int → Bool} {os : List Node}
    {d : Int × Int}
    (hopen : OpenCell grid ⟨cur.x + d.1, cur.y + d.2⟩) :
    CoveredG (processNeighbor grid ex ey cur visited os d.1 d.2) visited
      ⟨cur.x + d.1, cur.y + d.2⟩ (cur.g + 1) := by
  obtain ⟨hinb, hwall⟩ := hopen
  simp only [processNeighbor]
  split
  · rename_i hb
    exfalso
    simp only at hinb
    unfold inBounds at hinb
    omega
  · split
    · rename_i hwv
      rcases hwv with hw | hv
      · exact absurd hw hwall
      · exact Or.inl hv
    · rename_i hfound
      split
      · rename_i hf
        obtain ⟨m, hm, hx, hy, hg⟩ := tryUpdate_at_target os _ _ _ _ cur hf
        refine Or.inr ⟨m, hm, ?_, hg⟩
        simp [Node.pos, hx, hy]
      · refine Or.inr ⟨Node.mk (cur.x + d.1) (cur.y + d.2) (cur.g + 1)
          (((cur.x + d.1 - ex).natAbs + (cur.y + d.2 - ey).natAbs : Nat) : Int)
          (cur.g + 1 +
            (((cur.x + d.1 - ex).natAbs + (cur.y + d.2 - ey).natAbs : Nat) : Int))
          (some cur),
          List.mem_append.mpr (Or.inr (List.mem_singleton.mpr rfl)),
          rfl, le_refl _⟩

/- The same facts lifted through the fold over the four directions. -/

theorem fold_at {grid : Grid} {ex ey : Int} {cur : Node}
    {visited : Int → Int → Bool} {w : Point} :
    ∀ (ds : List (Int × Int)) (os : List Node), (∃ n ∈ os, n.pos = w) →
      ∃ n ∈ ds.foldl
        (fun os d => processNeighbor grid ex ey cur visited os d.1 d.2) os,
        n.pos = w := by
  intro ds
  induction ds with
  | nil => intro os h; exact h
  | cons d rest ih =>
    intro os h
    exact ih _ (processNeighbor_at h)

theorem fold_covG {grid : Grid} {ex ey : Int} {cur : Node}
    {visited : Int → Int → Bool} {w : Point} {b : Int} :
    ∀ (ds : List (Int × Int)) (os : List Node),
      (∃ n ∈ os, n.pos = w ∧ n.g ≤ b) →
      ∃ n ∈ ds.foldl
        (fun os d => processNeighbor grid ex ey cur visited os d.1 d.2) os,
        n.pos = w ∧ n.g ≤ b := by
  intro ds
  induction ds with
  | nil => intro os h; exact h
  | cons d rest ih =>
    intro os h
    exact ih _ (processNeighbor_covG h)

theorem fold_covers_new {grid : Grid} {ex ey : Int} {cur : Node}
    {visited : Int → Int → Bool} {d : Int × Int}
    (hopen : OpenCell grid ⟨cur.x + d.1, cur.y + d.2⟩) :
    ∀ (ds : List (Int × Int)) (os : List Node), d ∈ ds →
      CoveredG (ds.foldl
        (fun os d => processNeighbor grid ex ey cur visited os d.1 d.2) os)
        visited ⟨cur.x + d.1, cur.y + d.2⟩ (cur.g + 1) := by
  intro ds
  induction ds with
  | nil => intro os h; simp at h
  | cons d0 rest ih =>
    intro os hd
    rcases List.mem_cons.mp hd with rfl | hd
    · simp only [List.foldl_cons]
      rcases @processNeighbor_covers_new grid ex ey cur visited os d hopen
        with hv | hw
      · exact Or.inl hv
      · exact Or.inr (fold_covG rest _ hw)
    · exact ih _ hd

/- Preservation of the remaining open-set invariants by the expansion. -/

theorem processNeighbor_unvis {grid : Grid} {ex ey : Int} {cur : Node}
    {visited : Int → Int → Bool} {os : List Node} {d : Int × Int}
    (h : ∀ n ∈ os, visited n.y n.x = false) :
    ∀ n ∈ processNeighbor grid ex ey cur visited os d.1 d.2,
      visited n.y n.x = false := by
  intro m hm
  simp only [processNeighbor] at hm
  split at hm
  · exact h m hm
  · split at hm
    · exact h m hm
    · rename_i hrej
      have hv : visited (cur.y + d.2) (cur.x + d.1) = false := by
        rcases Bool.eq_false_or_eq_true (visited (cur.y + d.2) (cur.x + d.1))
          with h1 | h1
        · exact absurd (Or.inr h1) hrej
        · exact h1
      split at hm
      · rcases tryUpdate_mem os _ _ _ _ cur m hm with h2 | ⟨n, _, _, _, _, rfl⟩
        · exact h m h2
        · simpa using hv
      · rcases List.mem_append.mp hm with h2 | h2
        · rcases tryUpdate_mem os _ _ _ _ cur m h2 with h3 | ⟨n, _, _, _, _, rfl⟩
          · exact h m h3
          · simpa using hv
        · simp only [List.mem_singleton] at h2
          subst h2
          simpa using hv

theorem processNeighbor_inb {grid : Grid} {ex ey : Int} {cur : Node}
    {visited : Int → Int → Bool} {os : List Node} {d : Int × Int}
    (h : ∀ n ∈ os, inBounds n.x n.y) :
    ∀ n ∈ processNeighbor grid ex ey cur visited os d.1 d.2,
      inBounds n.x n.y := by
  intro m hm
  simp only [processNeighbor] at hm
  split at hm
  · exact h m hm
  · rename_i hb
    have hinb : inBounds (cur.x + d.1) (cur.y + d.2) := by
      unfold inBounds
      omega
    split at hm
    · exact h m hm
    · split at hm
      · rcases tryUpdate_mem os _ _ _ _ cur m hm with h2 | ⟨n, _, _, _, _, rfl⟩
        · exact h m h2
        · simpa using hinb
      · rcases List.mem_append.mp hm with h2 | h2
        · rcases tryUpdate_mem os _ _ _ _ cur m h2 with h3 | ⟨n, _, _, _, _, rfl⟩
          · exact h m h3
          · simpa using hinb
        · simp only [List.mem_singleton] at h2
          subst h2
          simpa using hinb

theorem processNeighbor_nodup {grid : Grid} {ex ey : Int} {cur : Node}
    {visited : Int → Int → Bool} {os : List Node} {d : Int × Int}
    (h : (os.map Node.pos).Nodup) :
    ((processNeighbor grid ex ey cur visited os d.1 d.2).map
      Node.pos).Nodup := by
  simp only [processNeighbor]
  split
  · exact h
  · split
    · exact h
    · split
      · rw [tryUpdate_coords]
        exact h
      · rename_i hnf
        rw [List.map_append, tryUpdate_coords]
        simp only [List.map_cons, List.map_nil]
        rw [List.nodup_append]
        refine ⟨h, List.nodup_singleton _, ?_⟩
        intro p hp hq
        simp only [List.mem_singleton, Node.pos_mk] at hq
        subst hq
        obtain ⟨n, hn, hpn⟩ := List.mem_map.mp hp
        rw [tryUpdate_found] at hnf
        refine hnf ⟨n, hn, ?_, ?_⟩
        · exact congrArg Point.x hpn
        · exact congrArg Point.y hpn

theorem processNeighbor_startWit {grid : Grid} {ex ey : Int} {cur : Node}
    {visited : Int → Int → Bool} {os : List Node} {d : Int × Int}
    {start : Point} (hcg : 0 ≤ cur.g)
    (h : ∃ n ∈ os, n.pos = start ∧ n.g = 0) :
    ∃ n ∈ processNeighbor grid ex ey cur visited os d.1 d.2,
      n.pos = start ∧ n.g = 0 := by
  obtain ⟨n, hn, hpos, hg⟩ := h
  simp only [processNeighbor]
  split
  · exact ⟨n, hn, hpos, hg⟩
  · split
    · exact ⟨n, hn, hpos, hg⟩
    · obtain ⟨m, hm, hx, hy, hc⟩ := tryUpdate_exists os (cur.x + d.1)
        (cur.y + d.2) (cur.g + 1)
        (cur.g + 1 +
          (((cur.x + d.1 - ex).natAbs + (cur.y + d.2 - ey).natAbs : Nat) : Int))
        cur n hn
      have hmg : m.g = 0 := by
        rcases hc with rfl | ⟨h1, h2⟩
        · exact hg
        · omega
      split
      · exact ⟨m, hm, (pos_eq_of_coords hx hy).trans hpos, hmg⟩
      · exact ⟨m, List.mem_append.mpr (Or.inl hm),
          (pos_eq_of_coords hx hy).trans hpos, hmg⟩

theorem fold_unvis {grid : Grid} {ex ey : Int} {cur : Node}
    {visited : Int → Int → Bool} :
    ∀ (ds : List (Int × Int)) (os : List Node),
      (∀ n ∈ os, visited n.y n.x = false) →
      ∀ n ∈ ds.foldl
        (fun os d => processNeighbor grid ex ey cur visited os d.1 d.2) os,
        visited n.y n.x = false := by
  intro ds
  induction ds with
  | nil => intro os h; exact h
  | cons d rest ih => intro os h; exact ih _ (processNeighbor_unvis h)

theorem fold_inb {grid : Grid} {ex ey : Int} {cur : Node}
    {visited : Int → Int → Bool} :
    ∀ (ds : List (Int × Int)) (os : List Node),
      (∀ n ∈ os, inBounds n.x n.y) →
      ∀ n ∈ ds.foldl
        (fun os d => processNeighbor grid ex ey cur visited os d.1 d.2) os,
        inBounds n.x n.y := by
  intro ds
  induction ds with
  | nil => intro os h; exact h
  | cons d rest ih => intro os h; exact ih _ (processNeighbor_inb h)

theorem fold_nodup {grid : Grid} {ex ey : Int} {cur : Node}
    {visited : Int → Int → Bool} :
    ∀ (ds : List (Int × Int)) (os : List Node),
      (os.map Node.pos).Nodup →
      ((ds.foldl
        (fun os d => processNeighbor grid ex ey cur visited os d.1 d.2)
        os).map Node.pos).Nodup := by
  intro ds
  induction ds with
  | nil => intro os h; exact h
  | cons d rest ih => intro os h; exact ih _ (processNeighbor_nodup h)

theorem fold_startWit {grid : Grid} {ex ey : Int} {cur : Node}
    {visited : Int → Int → Bool} {start : Point} (hcg : 0 ≤ cur.g) :
    ∀ (ds : List (Int × Int)) (os : List Node),
      (∃ n ∈ os, n.pos = start ∧ n.g = 0) →
      ∃ n ∈ ds.foldl
        (fun os d => processNeighbor grid ex ey cur visited os d.1 d.2) os,
        n.pos = start ∧ n.g = 0 := by
  intro ds
  induction ds with
  | nil => intro os h; exact h
  | cons d rest ih => intro os h; exact ih _ (processNeighbor_startWit hcg h)

theorem Point.ext_xy {p q : Point} (hx : p.x = q.x) (hy : p.y = q.y) :
    p = q := by
  cases p
  cases q
  simp_all

/-- One non-goal iteration of the main loop preserves the completeness
invariant. -/
theorem loopInv_step {grid : Grid} {start goal : Point} {o : Node}
    {os : List Node} {visited : Int → Int → Bool}
    (inv : LoopInv grid start goal (o :: os) visited)
    (hstart : OpenCell grid start)
    (hgoal : ¬((pickLowest o os).1.x = goal.x ∧
      (pickLowest o os).1.y = goal.y)) :
    LoopInv grid start goal
      (neighborDirs.foldl
        (fun os2 d => processNeighbor grid goal.x goal.y (pickLowest o os).1
          (fun b a => if b = (pickLowest o os).1.y ∧ a = (pickLowest o os).1.x
            then true else visited b a) os2 d.1 d.2)
        (pickLowest o os).2)
      (fun b a => if b = (pickLowest o os).1.y ∧ a = (pickLowest o os).1.x
        then true else visited b a) := by
  set cur := (pickLowest o os).1 with hcurdef
  set rest := (pickLowest o os).2 with hrestdef
  set visited2 : Int → Int → Bool :=
    fun b a => if b = cur.y ∧ a = cur.x then true else visited b a
    with hv2def
  have hperm : List.Perm (cur :: rest) (o :: os) := pickLowest_perm o os
  have hcur : GoodNode grid start goal cur :=
    inv.sound _ (pickLowest_mem o os)
  have hcg : 0 ≤ cur.g := hcur.g_nonneg
  have hrest_mem : ∀ n ∈ rest, n ∈ o :: os :=
    pickLowest_rest_subset o os
  have hnodupCR : ((cur :: rest).map Node.pos).Nodup :=
    (hperm.map Node.pos).nodup_iff.mpr inv.nodup
  have hposne : ∀ n ∈ rest, n.pos ≠ cur.pos := by
    intro n hn he
    have : cur.pos ∉ rest.map Node.pos := by
      simpa using hnodupCR.not_mem
    exact this (he ▸ List.mem_map_of_mem Node.pos hn)
  have hv2true : ∀ b a, visited b a = true → visited2 b a = true := by
    intro b a h
    by_cases hc : b = cur.y ∧ a = cur.x <;> simp [hv2def, hc, h]
  have hv2cases : ∀ b a, visited2 b a = true →
      (b = cur.y ∧ a = cur.x) ∨ visited b a = true := by
    intro b a h
    by_cases hc : b = cur.y ∧ a = cur.x
    · exact Or.inl hc
    · right; simpa [hv2def, hc] using h
  refine ⟨?_, ?_, ?_, ?_, ?_, ?_, ?_, ?_⟩
  · exact expand_sound hcur neighborDirs (fun d h => h) rest
      (fun n hn => inv.sound n (hrest_mem n hn))
  · exact fold_nodup neighborDirs rest (List.Nodup.of_cons hnodupCR)
  · refine fold_unvis neighborDirs rest ?_
    intro n hn
    have h2 : ¬(n.y = cur.y ∧ n.x = cur.x) := by
      intro hc
      exact hposne n hn (Point.ext_xy hc.2 hc.1)
    show (if n.y = cur.y ∧ n.x = cur.x then true else visited n.y n.x) = false
    rw [if_neg h2]
    exact inv.unvis n (hrest_mem n hn)
  · exact fold_inb neighborDirs rest (fun n hn => inv.inb n (hrest_mem n hn))
  · have h2 : ¬(goal.y = cur.y ∧ goal.x = cur.x) := by
      intro hc
      exact hgoal ⟨hc.2.symm, hc.1.symm⟩
    show (if goal.y = cur.y ∧ goal.x = cur.x then true
      else visited goal.y goal.x) = false
    rw [if_neg h2]
    exact inv.goalUnvis
  · rcases inv.startWit with hvs | ⟨n0, hn0, hn0pos, hn0g⟩
    · exact Or.inl (hv2true _ _ hvs)
    · have hmm : n0 ∈ cur :: rest := hperm.mem_iff.mpr hn0
      rcases List.mem_cons.mp hmm with heq | hmem
      · left
        have h1 : start.y = cur.y ∧ start.x = cur.x := by
          rw [← heq, ← hn0pos]
          exact ⟨rfl, rfl⟩
        show (if start.y = cur.y ∧ start.x = cur.x then true
          else visited start.y start.x) = true
        rw [if_pos h1]
      · exact Or.inr (fold_startWit hcg neighborDirs rest ⟨n0, hmem, hn0pos, hn0g⟩)
  · intro v w hv hadj hopen
    rcases hv2cases _ _ hv with ⟨hb, ha⟩ | hold
    · have hvpos : v = cur.pos := Point.ext_xy ha hb
      rw [hvpos] at hadj
      obtain ⟨d, hd, rfl⟩ := (adjacent_iff_dir cur.pos w).mp hadj
      rcases @fold_covers_new grid goal.x goal.y cur visited2 d hopen
        neighborDirs rest hd with h1 | ⟨n, hn, hpos, _⟩
      · exact Or.inl h1
      · exact Or.inr ⟨n, hn, hpos⟩
    · rcases inv.frontier v w hold hadj hopen with h1 | ⟨n, hn, hpos⟩
      · exact Or.inl (hv2true _ _ h1)
      · have hmm : n ∈ cur :: rest := hperm.mem_iff.mpr hn
        rcases List.mem_cons.mp hmm with heq | hmem
        · left
          have h1 : w.y = cur.y ∧ w.x = cur.x := by
            rw [← heq, ← hpos]
            exact ⟨rfl, rfl⟩
          show (if w.y = cur.y ∧ w.x = cur.x then true
            else visited w.y w.x) = true
          rw [if_pos h1]
        · exact Or.inr (fold_at neighborDirs rest ⟨n, hmem, hpos⟩)
  · intro v hv
    rcases hv2cases _ _ hv with ⟨hb, ha⟩ | hold
    · have hvpos : v = cur.pos := Point.ext_xy ha hb
      subst hvpos
      exact ⟨cur.g.toNat, hcur.reach hstart⟩
    · exact inv.visReach v hold

/-- With an empty open set the invariant forces every cell reachable from
the start to be visited. -/
theorem loopInv_nil_reach {grid : Grid} {start goal : Point}
    {visited : Int → Int → Bool}
    (inv : LoopInv grid start goal [] visited) :
    ∀ (k : Nat) (z : Point), ReachN grid start z k →
      visited z.y z.x = true := by
  intro k
  induction k with
  | zero =>
    intro z h
    cases h
    rcases inv.startWit with h1 | ⟨n, hn, _⟩
    · exact h1
    · simp at hn
  | succ m ih =>
    intro z h
    obtain ⟨q, hq, hadj, hopen⟩ := h.unsnoc
    rcases inv.frontier q z (ih q hq) hadj hopen with h1 | ⟨n, hn, _⟩
    · exact h1
    · simp at hn

theorem loopInv_nil_absurd {grid : Grid} {start goal : Point}
    {visited : Int → Int → Bool}
    (inv : LoopInv grid start goal [] visited)
    (hreach : Reachable grid start goal) : False := by
  obtain ⟨k, hk⟩ := hreach
  exact absurd (loopInv_nil_reach inv k goal hk)
    (by simp [inv.goalUnvis])

/-- Marking the popped (in-bounds, unvisited) cell strictly decreases the
number of unvisited in-bounds cells. -/
theorem unvisCount_lt {visited : Int → Int → Bool} {cur : Node}
    (hinb : inBounds cur.x cur.y) (hunvis : visited cur.y cur.x = false) :
    unvisCount (fun b a => if b = cur.y ∧ a = cur.x then true
      else visited b a) < unvisCount visited := by
  apply Finset.card_lt_card
  rw [Finset.ssubset_iff_of_subset]
  · refine ⟨(cur.x, cur.y), ?_, ?_⟩
    · rw [Finset.mem_filter]
      refine ⟨?_, hunvis⟩
      unfold cellFinset
      rw [Finset.mem_product, Finset.mem_Icc, Finset.mem_Icc]
      unfold inBounds at hinb
      omega
    · rw [Finset.mem_filter]
      rintro ⟨-, hc⟩
      simp at hc
  · intro c hc
    rw [Finset.mem_filter] at hc ⊢
    refine ⟨hc.1, ?_⟩
    have h2 := hc.2
    by_cases hcc : c.2 = cur.y ∧ c.1 = cur.x
    · simp [hcc] at h2
    · simpa [hcc] using h2

/-- Completeness of the main loop: with the invariant established, enough
fuel, an open start and a goal reachable through open cells, the loop
does not return the empty path. -/
theorem findPathLoop_complete {grid : Grid} {start goal : Point}
    (hstart : OpenCell grid start) (hreach : Reachable grid start goal) :
    ∀ (fuel : Nat) (openSet : List Node) (visited : Int → Int → Bool),
      LoopInv grid start goal openSet visited →
      unvisCount visited < fuel →
      findPathLoop grid goal.x goal.y fuel openSet visited ≠ [] := by
  intro fuel
  induction fuel with
  | zero => intro _ _ _ hcard; omega
  | succ fuel ih =>
    intro openSet visited inv hcard
    match openSet with
    | [] => exact absurd hreach (fun h => loopInv_nil_absurd inv h)
    | o :: os =>
      simp only [findPathLoop]
      by_cases hgoal : ((pickLowest o os).1.x = goal.x ∧
          (pickLowest o os).1.y = goal.y)
      · simp only [if_pos hgoal]
        intro hc
        rw [List.reverse_eq_nil_iff] at hc
        exact collectPath_ne_nil _ hc
      · simp only [if_neg hgoal]
        apply ih _ _ (loopInv_step inv hstart hgoal)
        have h1 := unvisCount_lt
          (inv.inb _ (pickLowest_mem o os))
          (inv.unvis _ (pickLowest_mem o os))
        omega

theorem cellFinset_card : cellFinset.card = 100 := by
  unfold cellFinset
  rw [Finset.card_product, Int.card_Icc]
  rfl

/-- Completeness of findPath: if the start cell is open and the goal is
reachable from it through open cells, findPath returns a non-empty
path. -/
theorem findPath_complete {grid : Grid} {sx sy gx gy : Int}
    (hstart : OpenCell grid ⟨sx, sy⟩)
    (hreach : Reachable grid ⟨sx, sy⟩ ⟨gx, gy⟩) :
    findPath grid sx sy gx gy ≠ [] := by
  have hinv : LoopInv grid ⟨sx, sy⟩ ⟨gx, gy⟩
      [Node.mk sx sy 0 0 0 none] (fun _ _ => false) := by
    refine ⟨?_, ?_, ?_, ?_, rfl, ?_, ?_, ?_⟩
    · intro n hn
      simp only [List.mem_singleton] at hn
      subst hn
      exact GoodNode.root
    · simp
    · intro n _
      rfl
    · intro n hn
      simp only [List.mem_singleton] at hn
      subst hn
      exact hstart.1
    · refine Or.inr ⟨Node.mk sx sy 0 0 0 none, by simp, rfl, rfl⟩
    · intro v w hv
      simp at hv
    · intro v hv
      simp at hv
  have hcard : unvisCount (fun _ _ => false) <
      gridSize.toNat * gridSize.toNat + 1 := by
    have h1 : unvisCount (fun _ _ => false) ≤ cellFinset.card :=
      Finset.card_filter_le _ _
    rw [cellFinset_card] at h1
    have h2 : gridSize.toNat * gridSize.toNat + 1 = 101 := rfl
    omega
  exact findPathLoop_complete hstart hreach _ _ _ hinv hcard

/- The carving loops of validatePath. -/

theorem setCell_preserves0 {g : Grid} {y x b a : Int}
    (h : g b a = 0) : setCell g y x 0 b a = 0 := by
  unfold setCell
  split <;> simp [h]

theorem carveH_preserves0 {b a : Int} :
    ∀ (n : Nat) (g : Grid) (x y0 dx : Int), g b a = 0 →
      carveH g x y0 dx n b a = 0 := by
  intro n
  induction n with
  | zero => intro g x y0 dx h; exact h
  | succ m ih =>
    intro g x y0 dx h
    exact ih _ _ _ _ (setCell_preserves0 h)

theorem carveV_preserves0 {b a : Int} :
    ∀ (n : Nat) (g : Grid) (y x0 dy : Int), g b a = 0 →
      carveV g y x0 dy n b a = 0 := by
  intro n
  induction n with
  | zero => intro g y x0 dy h; exact h
  | succ m ih =>
    intro g y x0 dy h
    exact ih _ _ _ _ (setCell_preserves0 h)

theorem carveH_or {b a : Int} :
    ∀ (n : Nat) (g : Grid) (x y0 dx : Int),
      carveH g x y0 dx n b a = g b a ∨
        (carveH g x y0 dx n b a = 0 ∧ b = y0 ∧
          ∃ k : Nat, k < n ∧ a = x + dx * k) := by
  intro n
  induction n with
  | zero => intro g x y0 dx; exact Or.inl rfl
  | succ m ih =>
    intro g x y0 dx
    rcases ih (setCell g y0 x 0) (x + dx) y0 dx with h1 | ⟨h1, hb, k, hk, ha⟩
    · rw [carveH, h1]
      unfold setCell
      by_cases hc : b = y0 ∧ a = x
      · right
        rw [if_pos hc]
        exact ⟨rfl, hc.1, 0, by omega, by omega⟩
      · left
        rw [if_neg hc]
    · right
      refine ⟨by rw [carveH]; exact h1, hb, k + 1, by omega, ?_⟩
      rw [ha]
      push_cast
      ring

theorem carveV_or {b a : Int} :
    ∀ (n : Nat) (g : Grid) (y x0 dy : Int),
      carveV g y x0 dy n b a = g b a ∨
        (carveV g y x0 dy n b a = 0 ∧ a = x0 ∧
          ∃ k : Nat, k < n ∧ b = y + dy * k) := by
  intro n
  induction n with
  | zero => intro g y x0 dy; exact Or.inl rfl
  | succ m ih =>
    intro g y x0 dy
    rcases ih (setCell g y x0 0) (y + dy) x0 dy with h1 | ⟨h1, ha, k, hk, hb⟩
    · rw [carveV, h1]
      unfold setCell
      by_cases hc : b = y ∧ a = x0
      · right
        rw [if_pos hc]
        exact ⟨rfl, hc.2, 0, by omega, by omega⟩
      · left
        rw [if_neg hc]
    · right
      refine ⟨by rw [carveV]; exact h1, ha, k + 1, by omega, ?_⟩
      rw [hb]
      push_cast
      ring

theorem carveH_covers {y0 dx : Int} :
    ∀ (n : Nat) (g : Grid) (x : Int) (k : Nat), k < n →
      carveH g x y0 dx n y0 (x + dx * k) = 0 := by
  intro n
  induction n with
  | zero => intro g x k hk; omega
  | succ m ih =>
    intro g x k hk
    match k with
    | 0 =>
      rw [carveH]
      apply carveH_preserves0
      unfold setCell
      rw [if_pos ⟨rfl, by omega⟩]
    | k + 1 =>
      rw [carveH]
      have := ih (setCell g y0 x 0) (x + dx) k (by omega)
      have harg : x + dx + dx * (k : Int) = x + dx * ((k : Nat) + 1 : Nat) := by
        push_cast
        ring
      rw [harg] at this
      exact this

theorem carveV_covers {x0 dy : Int} :
    ∀ (n : Nat) (g : Grid) (y : Int) (k : Nat), k < n →
      carveV g y x0 dy n (y + dy * k) x0 = 0 := by
  intro n
  induction n with
  | zero => intro g y k hk; omega
  | succ m ih =>
    intro g y k hk
    match k with
    | 0 =>
      rw [carveV]
      apply carveV_preserves0
      unfold setCell
      rw [if_pos ⟨by omega, rfl⟩]
    | k + 1 =>
      rw [carveV]
      have := ih (setCell g y x0 0) (y + dy) k (by omega)
      have harg : y + dy + dy * (k : Int) = y + dy * ((k : Nat) + 1 : Nat) := by
        push_cast
        ring
      rw [harg] at this
      exact this

/-- validatePath never closes a cell: every cell open before the call is
still open afterwards. -/
theorem validatePath_preserves0 {grid : Grid} {sx sy ex ey b a : Int}
    (h : grid b a = 0) : validatePath grid sx sy ex ey b a = 0 := by
  unfold validatePath
  split
  · exact setCell_preserves0
      (carveV_preserves0 _ _ _ _ _ (carveH_preserves0 _ _ _ _ _ h))
  · exact h

/-- validatePath changes no cell except possibly cells of the fallback
corridor, which it sets to open. -/
theorem validatePath_or {grid : Grid} (sx sy ex ey b a : Int) :
    validatePath grid sx sy ex ey b a = grid b a ∨
      (validatePath grid sx sy ex ey b a = 0 ∧ OnCorridor sx sy ex ey a b) := by
  unfold validatePath
  split
  · change setCell (carveV (carveH grid sx sy (if ex > sx then 1 else -1)
        (ex - sx).natAbs) sy ex (if ey > sy then 1 else -1)
        (ey - sy).natAbs) ey ex 0 b a = grid b a ∨
      (setCell (carveV (carveH grid sx sy (if ex > sx then 1 else -1)
        (ex - sx).natAbs) sy ex (if ey > sy then 1 else -1)
        (ey - sy).natAbs) ey ex 0 b a = 0 ∧ OnCorridor sx sy ex ey a b)
    simp only [setCell]
    by_cases hc : b = ey ∧ a = ex
    · right
      rw [if_pos hc]
      exact ⟨rfl, Or.inr (Or.inr ⟨hc.2, hc.1⟩)⟩
    · rw [if_neg hc]
      rcases carveV_or (ey - sy).natAbs
          (carveH grid sx sy (if ex > sx then 1 else -1) (ex - sx).natAbs)
          sy ex (if ey > sy then 1 else -1) with h1 | ⟨h1, ha, k, hk, hb⟩
      · rw [h1]
        rcases carveH_or (ex - sx).natAbs grid sx sy
            (if ex > sx then 1 else -1) with h2 | ⟨h2, hb, k, hk, ha⟩
        · exact Or.inl h2
        · exact Or.inr ⟨h2, Or.inl ⟨hb, k, hk, ha⟩⟩
      · exact Or.inr ⟨h1, Or.inr (Or.inl ⟨ha, k, hk, hb⟩)⟩
  · exact Or.inl rfl

/- Straight-line walks used to traverse the fallback corridor. -/

theorem reach_horiz {grid : Grid} {y0 : Int} :
    ∀ (m : Nat) (x0 : Int),
      (∀ i : Nat, i ≤ m → OpenCell grid ⟨x0 + i, y0⟩) →
      ReachN grid ⟨x0, y0⟩ ⟨x0 + m, y0⟩ m := by
  intro m
  induction m with
  | zero =>
    intro x0 h
    have h0 := h 0 (by omega)
    simp only [Nat.cast_zero, add_zero] at h0 ⊢
    exact ReachN.refl _ h0
  | succ m ih =>
    intro x0 h
    have h0 := h 0 (by omega)
    simp only [Nat.cast_zero, add_zero] at h0
    have hnext := ih (x0 + 1) (by
      intro i hi
      have := h (i + 1) (by omega)
      have harg : x0 + 1 + (i : Int) = x0 + ((i : Nat) + 1 : Nat) := by
        push_cast
        ring
      rw [harg]
      exact this)
    have harg2 : x0 + 1 + (m : Int) = x0 + ((m : Nat) + 1 : Nat) := by
      push_cast
      ring
    rw [harg2] at hnext
    exact ReachN.cons h0 (by unfold adjacent; simp) hnext

theorem reach_vert {grid : Grid} {x0 : Int} :
    ∀ (m : Nat) (y0 : Int),
      (∀ j : Nat, j ≤ m → OpenCell grid ⟨x0, y0 + j⟩) →
      ReachN grid ⟨x0, y0⟩ ⟨x0, y0 + m⟩ m := by
  intro m
  induction m with
  | zero =>
    intro y0 h
    have h0 := h 0 (by omega)
    simp only [Nat.cast_zero, add_zero] at h0 ⊢
    exact ReachN.refl _ h0
  | succ m ih =>
    intro y0 h
    have h0 := h 0 (by omega)
    simp only [Nat.cast_zero, add_zero] at h0
    have hnext := ih (y0 + 1) (by
      intro j hj
      have := h (j + 1) (by omega)
      have harg : y0 + 1 + (j : Int) = y0 + ((j : Nat) + 1 : Nat) := by
        push_cast
        ring
      rw [harg]
      exact this)
    have harg2 : y0 + 1 + (m : Int) = y0 + ((m : Nat) + 1 : Nat) := by
      push_cast
      ring
    rw [harg2] at hnext
    exact ReachN.cons h0 (by unfold adjacent; simp) hnext

theorem ReachN.trans {grid : Grid} {p q r : Point} {m n : Nat}
    (h1 : ReachN grid p q m) (h2 : ReachN grid q r n) :
    ReachN grid p r (m + n) := by
  induction h1 with
  | refl _ _ => simpa using h2
  | @cons p0 q0 r0 m0 hp hadj _ ih =>
    have := ReachN.cons hp hadj (ih h2)
    have harg : m0 + 1 + n = m0 + n + 1 := by omega
    rw [harg]
    exact this

/-- After validatePath runs from the fixed start (0,0) of generateGrid to
an in-bounds goal whose cell survives open, findPath succeeds on the
repaired grid: either the original grid already had a path, or the carved
L-corridor provides one. -/
theorem validatePath_solvable {grid : Grid} {ex ey : Int}
    (hs : grid 0 0 = 0) (hex : 0 ≤ ex) (hex2 : ex < gridSize)
    (hey : 0 ≤ ey) (hey2 : ey < gridSize) :
    findPath (validatePath grid 0 0 ex ey) 0 0 ex ey ≠ [] := by
  by_cases hb : (findPath grid 0 0 ex ey).length = 0
  · have hval : validatePath grid 0 0 ex ey =
        setCell (carveV (carveH grid 0 0 (if ex > 0 then 1 else -1)
          (ex - 0).natAbs) 0 ex (if ey > 0 then 1 else -1)
          (ey - 0).natAbs) ey ex 0 := by
      unfold validatePath
      rw [if_pos hb]
    rw [hval]
    set g3 := setCell (carveV (carveH grid 0 0 (if ex > 0 then 1 else -1)
      (ex - 0).natAbs) 0 ex (if ey > 0 then 1 else -1)
      (ey - 0).natAbs) ey ex 0 with hg3
    have hgoal : g3 ey ex = 0 := by
      rw [hg3]
      unfold setCell
      rw [if_pos ⟨rfl, rfl⟩]
    have hH : ∀ i : Nat, (i : Int) < ex → g3 0 (i : Int) = 0 := by
      intro i hi
      have hdx : (if ex > 0 then (1 : Int) else -1) = 1 := if_pos (by omega)
      have hcv : carveH grid 0 0 (if ex > 0 then 1 else -1)
          (ex - 0).natAbs 0 (i : Int) = 0 := by
        have hc := @carveH_covers 0 (if ex > 0 then (1 : Int) else -1)
          (ex - 0).natAbs grid 0 i (by omega)
        rw [hdx] at hc ⊢
        simpa using hc
      rw [hg3]
      exact setCell_preserves0 (carveV_preserves0 _ _ _ _ _ hcv)
    have hV : ∀ j : Nat, (j : Int) < ey → g3 (j : Int) ex = 0 := by
      intro j hj
      have hdy : (if ey > 0 then (1 : Int) else -1) = 1 := if_pos (by omega)
      have hcv : carveV (carveH grid 0 0 (if ex > 0 then 1 else -1)
          (ex - 0).natAbs) 0 ex (if ey > 0 then 1 else -1)
          (ey - 0).natAbs (j : Int) ex = 0 := by
        have hc := @carveV_covers ex (if ey > 0 then (1 : Int) else -1)
          (ey - 0).natAbs
          (carveH grid 0 0 (if ex > 0 then 1 else -1) (ex - 0).natAbs)
          0 j (by omega)
        rw [hdy] at hc ⊢
        simpa using hc
      rw [hg3]
      exact setCell_preserves0 hcv
    have hHopen : ∀ i : Nat, i ≤ ex.toNat → OpenCell g3 ⟨0 + (i : Int), 0⟩ := by
      intro i hi
      refine ⟨show inBounds (0 + (i : Int)) 0 from by unfold inBounds; omega, ?_⟩
      show g3 0 (0 + (i : Int)) ≠ 1
      by_cases hlt : (i : Int) < ex
      · have := hH i hlt
        simp only [zero_add]
        omega
      · have hieq : (i : Int) = ex := by omega
        rw [zero_add, hieq]
        by_cases hey0 : (0 : Int) < ey
        · have := hV 0 (by simpa using hey0)
          simp only [Nat.cast_zero] at this
          omega
        · have h0 : ey = 0 := by omega
          rw [← h0]
          omega
    have hVopen : ∀ j : Nat, j ≤ ey.toNat → OpenCell g3 ⟨ex, 0 + (j : Int)⟩ := by
      intro j hj
      refine ⟨show inBounds ex (0 + (j : Int)) from by unfold inBounds; omega, ?_⟩
      show g3 (0 + (j : Int)) ex ≠ 1
      by_cases hlt : (j : Int) < ey
      · have := hV j hlt
        simp only [zero_add]
        omega
      · have hjeq : (j : Int) = ey := by omega
        rw [zero_add, hjeq]
        omega
    have hreachH : ReachN g3 ⟨0, 0⟩ ⟨ex, 0⟩ ex.toNat := by
      have h1 := @reach_horiz g3 0 ex.toNat 0 hHopen
      have harg : (0 : Int) + (ex.toNat : Int) = ex := by omega
      rw [harg] at h1
      exact h1
    have hreachV : ReachN g3 ⟨ex, 0⟩ ⟨ex, ey⟩ ey.toNat := by
      have h1 := @reach_vert g3 ex ey.toNat 0 hVopen
      have harg : (0 : Int) + (ey.toNat : Int) = ey := by omega
      rw [harg] at h1
      exact h1
    have hst : OpenCell g3 ⟨0, 0⟩ := by
      refine ⟨show inBounds (0 : Int) 0 from by unfold inBounds; omega, ?_⟩
      show g3 0 0 ≠ 1
      have h0 : g3 0 0 = 0 := by
        rw [hg3]
        exact setCell_preserves0
          (carveV_preserves0 _ _ _ _ _ (carveH_preserves0 _ _ _ _ _ hs))
      omega
    exact findPath_complete hst ⟨_, hreachH.trans hreachV⟩
  · have hval : validatePath grid 0 0 ex ey = grid := by
      unfold validatePath
      rw [if_neg hb]
    rw [hval]
    intro hc
    exact hb (by rw [hc]; rfl)

/- Goal placement. -/

theorem pickGoalLoop_bounds {draws : List (Fin 8 × Fin 8)} {goal : Point} :
    pickGoalLoop draws = some goal →
      1 ≤ goal.x ∧ goal.x ≤ 8 ∧ 1 ≤ goal.y ∧ goal.y ≤ 8 := by
  induction draws with
  | nil => intro h; simp [pickGoalLoop] at h
  | cons p rest ih =>
    intro h
    match p with
    | (a, b) =>
      simp only [pickGoalLoop] at h
      split at h
      · have ha := a.isLt
        have hb := b.isLt
        cases h
        refine ⟨?_, ?_, ?_, ?_⟩ <;> simp <;> omega
      · exact ih h

theorem pickGoalLoop_dist {draws : List (Fin 8 × Fin 8)} {goal : Point} :
    pickGoalLoop draws = some goal →
      minDistance ≤ ((goal.x - startX).natAbs + (goal.y - startY).natAbs : Nat) := by
  induction draws with
  | nil => intro h; simp [pickGoalLoop] at h
  | cons p rest ih =>
    intro h
    match p with
    | (a, b) =>
      simp only [pickGoalLoop] at h
      split at h
      · rename_i hcond
        cases h
        exact hcond
      · exact ih h

theorem goalForLevel_inBounds {level : Int} {draws : List (Fin 8 × Fin 8)}
    {goal : Point} (h : goalForLevel level draws = some goal) :
    0 ≤ goal.x ∧ goal.x < gridSize ∧ 0 ≤ goal.y ∧ goal.y < gridSize := by
  unfold goalForLevel at h
  split_ifs at h
  · cases h; refine ⟨?_, ?_, ?_, ?_⟩ <;> simp [gridSize]
  · cases h; refine ⟨?_, ?_, ?_, ?_⟩ <;> simp [gridSize]
  · cases h; refine ⟨?_, ?_, ?_, ?_⟩ <;> simp [gridSize]
  · cases h; refine ⟨?_, ?_, ?_, ?_⟩ <;> simp [gridSize]
  · have := pickGoalLoop_bounds h
    unfold gridSize
    omega

/-- The grid produced by generateGridCore is open at the start cell and at
the goal cell. -/
theorem generateGridCore_open {goal : Point} {maze : Grid}
    : generateGridCore goal maze 0 0 = 0 ∧
      generateGridCore goal maze goal.y goal.x = 0 := by
  unfold generateGridCore
  have hstart : setCell (setCell maze startY startX 0) goal.y goal.x 0 0 0 = 0 := by
    unfold setCell
    by_cases hc : (0 : Int) = goal.y ∧ (0 : Int) = goal.x
    · rw [if_pos hc]
    · rw [if_neg hc, if_pos ⟨rfl, rfl⟩]
  have hgoal : setCell (setCell maze startY startX 0) goal.y goal.x 0
      goal.y goal.x = 0 := by
    unfold setCell
    rw [if_pos ⟨rfl, rfl⟩]
  exact ⟨validatePath_preserves0 hstart, validatePath_preserves0 hgoal⟩

/-- The grid produced by generateGridCore admits a path from (0,0) to the
goal whenever the goal is in bounds. -/
theorem generateGridCore_solvable {goal : Point} {maze : Grid}
    (hx : 0 ≤ goal.x) (hx2 : goal.x < gridSize)
    (hy : 0 ≤ goal.y) (hy2 : goal.y < gridSize) :
    findPath (generateGridCore goal maze) 0 0 goal.x goal.y ≠ [] := by
  unfold generateGridCore startX startY
  apply validatePath_solvable _ hx hx2 hy hy2
  unfold setCell
  by_cases hc : (0 : Int) = goal.y ∧ (0 : Int) = goal.x
  · rw [if_pos hc]
  · rw [if_neg hc, if_pos ⟨rfl, rfl⟩]

/- Movement resolution. -/

theorem handleCollision_fields (s : GameState) :
    (handleCollision s).playerPosition = s.playerPosition ∧
    (handleCollision s).visitedTiles = s.visitedTiles ∧
    (handleCollision s).level = s.level ∧
    (handleCollision s).lives = s.lives - 1 ∧
    (handleCollision s).score = s.score - deathPenalty := by
  unfold handleCollision gameOver
  by_cases hc : s.lives - 1 ≤ 0 <;> simp [hc]

theorem handleCollision_gameOver_iff {s : GameState}
    (hgo : s.isGameOver = false) :
    (handleCollision s).isGameOver = true ↔ s.lives - 1 ≤ 0 := by
  unfold handleCollision gameOver
  by_cases hc : s.lives - 1 ≤ 0 <;> simp [hc, hgo]

theorem isValidMove_snd (s : GameState) (x y : Int) :
    (isValidMove s x y).2 = s ∨ (isValidMove s x y).2 = handleCollision s := by
  unfold isValidMove
  split_ifs <;> simp

/-- A move whose in-bounds candidate cell is a wall is rejected through
handleCollision. -/
theorem handleMovement_wall {draws : List (Fin 8 × Fin 8)} {maze : Grid}
    {s : GameState} {dir : Dir}
    (hplay : s.isPlaying = true) (hgo : s.isGameOver = false)
    (hin : inBounds (stepDir s.playerPosition dir).x
      (stepDir s.playerPosition dir).y)
    (hwall : s.grid (stepDir s.playerPosition dir).y
      (stepDir s.playerPosition dir).x = 1) :
    handleMovement draws maze s dir = some (handleCollision s) := by
  unfold handleMovement
  rw [if_neg (by simp [hplay, hgo])]
  have hr : isValidMove s (stepDir s.playerPosition dir).x
      (stepDir s.playerPosition dir).y = (false, handleCollision s) := by
    unfold isValidMove
    rw [if_neg (by unfold inBounds at hin; omega), if_pos hwall]
  simp only [hr]
  simp

/-- A move at level ≥ 2 onto an in-bounds open but already visited cell is
rejected with no state change at all. -/
theorem handleMovement_revisit {draws : List (Fin 8 × Fin 8)} {maze : Grid}
    {s : GameState} {dir : Dir}
    (hplay : s.isPlaying = true) (hgo : s.isGameOver = false)
    (hlevel : 2 ≤ s.level)
    (hin : inBounds (stepDir s.playerPosition dir).x
      (stepDir s.playerPosition dir).y)
    (hopen : s.grid (stepDir s.playerPosition dir).y
      (stepDir s.playerPosition dir).x = 0)
    (hvis : ((stepDir s.playerPosition dir).x,
      (stepDir s.playerPosition dir).y) ∈ s.visitedTiles) :
    handleMovement draws maze s dir = some s := by
  unfold handleMovement
  rw [if_neg (by simp [hplay, hgo])]
  have hr : isValidMove s (stepDir s.playerPosition dir).x
      (stepDir s.playerPosition dir).y = (false, s) := by
    unfold isValidMove
    rw [if_neg (by unfold inBounds at hin; omega),
      if_neg (by simp [hopen]), if_pos ⟨hlevel, hvis⟩]
  simp only [hr]
  simp

/-- Direction events are ignored entirely once the game is over. -/
theorem handleMovement_gameOver {draws : List (Fin 8 × Fin 8)} {maze : Grid}
    {s : GameState} {dir : Dir} (h : s.isGameOver = true) :
    handleMovement draws maze s dir = some s := by
  unfold handleMovement
  rw [if_pos (Or.inl h)]

theorem applyEvents_gameOver {draws : List (Fin 8 × Fin 8)} {maze : Grid}
    {s : GameState} (h : s.isGameOver = true) :
    ∀ dirs : List Dir, applyEvents draws maze s dirs = some s := by
  intro dirs
  induction dirs with
  | nil => rfl
  | cons d ds ih =>
    unfold applyEvents
    rw [handleMovement_gameOver h]
    exact ih

/-- A restart resets the game to Playing, level 1, initial score and
lives. -/
theorem restartGame_spec {draws : List (Fin 8 × Fin 8)} {maze : Grid}
    {s s2 : GameState} (h : restartGame draws maze s = some s2) :
    s2.isPlaying = true ∧ s2.isGameOver = false ∧ s2.level = 1 ∧
    s2.score = initialScore ∧ s2.lives = initialLives ∧
    s2.playerPosition = ⟨0, 0⟩ := by
  unfold restartGame generateLevel at h
  split at h
  · exact absurd h (by simp)
  · cases h
    simp

/- Level generation and the visited start tile. -/

theorem generateLevel_visited {draws : List (Fin 8 × Fin 8)} {maze : Grid}
    {s s2 : GameState} (h : generateLevel draws maze s = some s2) :
    ((0 : Int), (0 : Int)) ∈ s2.visitedTiles := by
  unfold generateLevel at h
  split at h
  · exact absurd h (by simp)
  · cases h
    simp

theorem isValidMove_start_rejected {s : GameState}
    (hlevel : 2 ≤ s.level)
    (hvis : ((0 : Int), (0 : Int)) ∈ s.visitedTiles) :
    (isValidMove s 0 0).1 = false := by
  unfold isValidMove
  rw [if_neg (by unfold gridSize; omega)]
  by_cases hw : s.grid 0 0 = 1
  · rw [if_pos hw]
  · rw [if_neg hw, if_pos ⟨hlevel, hvis⟩]

theorem handleMovement_to_start {draws : List (Fin 8 × Fin 8)} {maze : Grid}
    {s s2 : GameState} {dir : Dir}
    (hlevel : 2 ≤ s.level)
    (hvis : ((0 : Int), (0 : Int)) ∈ s.visitedTiles)
    (hstep : stepDir s.playerPosition dir = ⟨0, 0⟩)
    (h : handleMovement draws maze s dir = some s2) :
    s2.playerPosition = s.playerPosition := by
  unfold handleMovement at h
  split at h
  · cases h
    rfl
  · rw [hstep] at h
    simp only [isValidMove_start_rejected hlevel hvis] at h
    rw [if_neg (by simp)] at h
    cases h
    rcases isValidMove_snd s 0 0 with h2 | h2
    · rw [h2]
    · rw [h2]
      exact (handleCollision_fields s).1

theorem handleMovement_keeps_visited {draws : List (Fin 8 × Fin 8)}
    {maze : Grid} {s s2 : GameState} {dir : Dir}
    (hvis : ((0 : Int), (0 : Int)) ∈ s.visitedTiles)
    (h : handleMovement draws maze s dir = some s2) :
    ((0 : Int), (0 : Int)) ∈ s2.visitedTiles := by
  unfold handleMovement at h
  split at h
  · cases h
    exact hvis
  · have hv2 : ((0 : Int), (0 : Int)) ∈
        (isValidMove s (stepDir s.playerPosition dir).x
          (stepDir s.playerPosition dir).y).2.visitedTiles := by
      rcases isValidMove_snd s (stepDir s.playerPosition dir).x
        (stepDir s.playerPosition dir).y with h2 | h2 <;> rw [h2]
      · exact hvis
      · rw [(handleCollision_fields s).2.1]
        exact hvis
    dsimp only at h
    split at h
    · split at h
      · exact generateLevel_visited h
      · cases h
        simp only [List.mem_cons]
        exact Or.inr hv2
    · cases h
      exact hv2

/-- The goal position for every level ≥ 5 keeps Manhattan distance at
least minDistance from the start. -/
theorem generateGrid_goal_dist {level : Int} {draws : List (Fin 8 × Fin 8)}
    {maze : Grid} {g : Grid} {goal : Point}
    (hlev : 5 ≤ level) (h : generateGrid level draws maze = some (g, goal)) :
    minDistance ≤
      ((goal.x - startX).natAbs + (goal.y - startY).natAbs : Nat) := by
  unfold generateGrid at h
  split at h
  · exact absurd h (by simp)
  · rename_i goal2 heq
    have hgg : goal2 = goal := by
      cases h
      rfl
    subst hgg
    unfold goalForLevel at heq
    rw [if_neg (by omega), if_neg (by omega), if_neg (by omega),
      if_neg (by omega)] at heq
    exact pickGoalLoop_dist heq

/- Optimality of the search: popped nodes carry an optimal g score. -/

/-- Along any walk from the start to an unvisited open cell z there is an
open-set node from which z is still reachable within the walk's remaining
budget. -/
theorem fullInv_witness {grid : Grid} {start goal : Point}
    {openSet : List Node} {visited : Int → Int → Bool}
    (inv : FullInv grid start goal openSet visited)
    (hstart : OpenCell grid start) :
    ∀ (k : Nat) (z : Point), ReachN grid start z k →
      visited z.y z.x = false →
      ∃ n ∈ openSet, ∃ m : Nat, ReachN grid n.pos z m ∧
        (n.g : Int) + m ≤ k := by
  intro k
  induction k with
  | zero =>
    intro z h hz
    cases h
    rcases inv.startWit with h1 | ⟨n, hn, hpos, hg⟩
    · rw [h1] at hz
      cases hz
    · refine ⟨n, hn, 0, ?_, by omega⟩
      rw [hpos]
      exact .refl start hstart
  | succ k ih =>
    intro z h hz
    obtain ⟨w, hw, hadj, hopenz⟩ := h.unsnoc
    by_cases hvw : visited w.y w.x = true
    · rcases inv.frontierG w z hvw hadj hopenz with h1 | ⟨n, hn, hpos, hg⟩
      · rw [h1] at hz
        cases hz
      · refine ⟨n, hn, 0, by rw [hpos]; exact .refl z hopenz, ?_⟩
        have hDw : (gdist grid start w : Int) ≤ k := by
          exact_mod_cast gdist_le hw
        omega
    · have hvwf : visited w.y w.x = false := by
        rcases Bool.eq_false_or_eq_true (visited w.y w.x) with h1 | h1
        · exact absurd h1 hvw
        · exact h1
      obtain ⟨n, hn, m, hm, hb⟩ := ih w hw hvwf
      refine ⟨n, hn, m + 1, hm.snoc hadj hopenz, ?_⟩
      push_cast
      omega

/-- The node popped by the lowest-f scan has an optimal g score. -/
theorem popped_optimal {grid : Grid} {start goal : Point} {o : Node}
    {os : List Node} {visited : Int → Int → Bool}
    (inv : FullInv grid start goal (o :: os) visited)
    (hstart : OpenCell grid start) :
    ((pickLowest o os).1.g : Int) ≤
      (gdist grid start (pickLowest o os).1.pos : Int) := by
  set cur := (pickLowest o os).1 with hcurdef
  have hcur : GoodNode grid start goal cur :=
    inv.sound _ (pickLowest_mem o os)
  have hreachcur : ReachN grid start cur.pos cur.g.toNat :=
    hcur.reach hstart
  have hD : ReachN grid start cur.pos (gdist grid start cur.pos) :=
    reach_gdist ⟨_, hreachcur⟩
  have hunvis : visited cur.pos.y cur.pos.x = false :=
    inv.unvis cur (pickLowest_mem o os)
  obtain ⟨n, hn, m, hm, hb⟩ :=
    fullInv_witness inv hstart (gdist grid start cur.pos) cur.pos hD hunvis
  have hfmin : cur.f ≤ n.f := pickLowest_min o os n hn
  have hmanh1 : ((manh n.pos cur.pos : Nat) : Int) ≤ m := by
    exact_mod_cast hm.manh_le
  have hDnn : (0 : Int) ≤ (gdist grid start cur.pos : Int) := by positivity
  rcases (inv.sound n hn).h_spec with ⟨hh, hf⟩ | ⟨_, hg0, _, hf0⟩
  · have e2 : ((manh n.pos goal : Nat) : Int) ≤
        ((manh n.pos cur.pos : Nat) : Int) + ((manh cur.pos goal : Nat) : Int) := by
      exact_mod_cast manh_triangle n.pos cur.pos goal
    rcases hcur.h_spec with ⟨hch, hcf⟩ | ⟨_, hcg0, _, _⟩
    · rw [hcf, hch] at hfmin
      rw [hf, hh] at hfmin
      omega
    · omega
  · rw [hf0] at hfmin
    rcases hcur.h_spec with ⟨hch, hcf⟩ | ⟨_, hcg0, _, _⟩
    · rw [hcf, hch] at hfmin
      have h1 : (0 : Int) ≤ ((manh cur.pos goal : Nat) : Int) := by positivity
      have h2 := hcur.g_nonneg
      omega
    · omega

/-- One non-goal iteration preserves the full invariant. -/
theorem fullInv_step {grid : Grid} {start goal : Point} {o : Node}
    {os : List Node} {visited : Int → Int → Bool}
    (inv : FullInv grid start goal (o :: os) visited)
    (hstart : OpenCell grid start)
    (hgoal : ¬((pickLowest o os).1.x = goal.x ∧
      (pickLowest o os).1.y = goal.y)) :
    FullInv grid start goal
      (neighborDirs.foldl
        (fun os2 d => processNeighbor grid goal.x goal.y (pickLowest o os).1
          (fun b a => if b = (pickLowest o os).1.y ∧ a = (pickLowest o os).1.x
            then true else visited b a) os2 d.1 d.2)
        (pickLowest o os).2)
      (fun b a => if b = (pickLowest o os).1.y ∧ a = (pickLowest o os).1.x
        then true else visited b a) := by
  refine ⟨loopInv_step inv.toLoopInv hstart hgoal, ?_⟩
  set cur := (pickLowest o os).1 with hcurdef
  set rest := (pickLowest o os).2 with hrestdef
  set visited2 : Int → Int → Bool :=
    fun b a => if b = cur.y ∧ a = cur.x then true else visited b a
    with hv2def
  have hperm : List.Perm (cur :: rest) (o :: os) := pickLowest_perm o os
  have hcg := (inv.sound _ (pickLowest_mem o os)).g_nonneg
  have hv2true : ∀ b a, visited b a = true → visited2 b a = true := by
    intro b a h
    by_cases hc : b = cur.y ∧ a = cur.x <;> simp [hv2def, hc, h]
  have hv2cases : ∀ b a, visited2 b a = true →
      (b = cur.y ∧ a = cur.x) ∨ visited b a = true := by
    intro b a h
    by_cases hc : b = cur.y ∧ a = cur.x
    · exact Or.inl hc
    · right; simpa [hv2def, hc] using h
  have hopt : (cur.g : Int) ≤ (gdist grid start cur.pos : Int) :=
    popped_optimal inv hstart
  intro v w hv hadj hopen
  rcases hv2cases _ _ hv with ⟨hb, ha⟩ | hold
  · have hvpos : v = cur.pos := Point.ext_xy ha hb
    rw [hvpos] at hadj ⊢
    obtain ⟨d, hd, rfl⟩ := (adjacent_iff_dir cur.pos w).mp hadj
    rcases @fold_covers_new grid goal.x goal.y cur visited2 d hopen
        neighborDirs rest hd with h1 | ⟨n, hn, hpos, hg⟩
    · exact Or.inl h1
    · exact Or.inr ⟨n, hn, hpos, by omega⟩
  · rcases inv.frontierG v w hold hadj hopen with h1 | ⟨n, hn, hpos, hg⟩
    · exact Or.inl (hv2true _ _ h1)
    · have hmm : n ∈ cur :: rest := hperm.mem_iff.mpr hn
      rcases List.mem_cons.mp hmm with heq | hmem
      · left
        have h1 : w.y = cur.y ∧ w.x = cur.x := by
          rw [← heq, ← hpos]
          exact ⟨rfl, rfl⟩
        show (if w.y = cur.y ∧ w.x = cur.x then true
          else visited w.y w.x) = true
        rw [if_pos h1]
      · rcases fold_covG (b := (gdist grid start v : Int) + 1)
          neighborDirs rest ⟨n, hmem, hpos, hg⟩ with ⟨n2, hn2, hp2, hg2⟩
        exact Or.inr ⟨n2, hn2, hp2, hg2⟩

/-- The full invariant holds at loop entry. -/
theorem findPath_initInv {grid : Grid} {sx sy gx gy : Int}
    (hs : inBounds sx sy) :
    FullInv grid ⟨sx, sy⟩ ⟨gx, gy⟩ [Node.mk sx sy 0 0 0 none]
      (fun _ _ => false) := by
  refine ⟨⟨?_, ?_, ?_, ?_, rfl, ?_, ?_, ?_⟩, ?_⟩
  · intro n hn
    simp only [List.mem_singleton] at hn
    subst hn
    exact GoodNode.root
  · simp
  · intro n _
    rfl
  · intro n hn
    simp only [List.mem_singleton] at hn
    subst hn
    exact hs
  · exact Or.inr ⟨Node.mk sx sy 0 0 0 none, by simp, rfl, rfl⟩
  · intro v w hv
    simp at hv
  · intro v hv
    simp at hv
  · intro v w hv
    simp at hv

/-- With the full invariant and enough fuel the loop returns a path of
exactly gdist + 1 nodes. -/
theorem findPathLoop_length {grid : Grid} {start goal : Point}
    (hstart : OpenCell grid start) (hreach : Reachable grid start goal) :
    ∀ (fuel : Nat) (openSet : List Node) (visited : Int → Int → Bool),
      FullInv grid start goal openSet visited →
      unvisCount visited < fuel →
      (findPathLoop grid goal.x goal.y fuel openSet visited).length =
        gdist grid start goal + 1 := by
  intro fuel
  induction fuel with
  | zero => intro _ _ _ hcard; omega
  | succ fuel ih =>
    intro openSet visited inv hcard
    match openSet with
    | [] => exact absurd hreach (fun h => loopInv_nil_absurd inv.toLoopInv h)
    | o :: os =>
      simp only [findPathLoop]
      by_cases hgoal : ((pickLowest o os).1.x = goal.x ∧
          (pickLowest o os).1.y = goal.y)
      · simp only [if_pos hgoal]
        have hcur : GoodNode grid start goal (pickLowest o os).1 :=
          inv.sound _ (pickLowest_mem o os)
        have hpos : (pickLowest o os).1.pos = goal :=
          Point.ext_xy hgoal.1 hgoal.2
        have h1 := popped_optimal inv hstart
        rw [hpos] at h1
        have h2 : gdist grid start goal ≤ (pickLowest o os).1.g.toNat := by
          apply gdist_le
          have := hcur.reach hstart
          rwa [hpos] at this
        rw [List.length_reverse, collectPath_length hcur]
        omega
      · simp only [if_neg hgoal]
        apply ih _ _ (fullInv_step inv hstart hgoal)
        have h1 := unvisCount_lt
          (inv.inb _ (pickLowest_mem o os))
          (inv.unvis _ (pickLowest_mem o os))
        omega

/- On a grid with no walls the graph distance is the Manhattan
distance. -/

theorem no_walls_reach {grid : Grid} (hnw : ∀ b a, grid b a ≠ 1) :
    ∀ (k : Nat) (p q : Point), inBounds p.x p.y → inBounds q.x q.y →
      manh p q = k → ReachN grid p q k := by
  intro k
  induction k with
  | zero =>
    intro p q hp hq hm
    have hpq : p = q := by
      unfold manh at hm
      exact Point.ext_xy (by omega) (by omega)
    subst hpq
    exact ReachN.refl p ⟨hp, hnw _ _⟩
  | succ k ih =>
    intro p q hp hq hm
    have hc : (p.x < q.x) ∨ (q.x < p.x) ∨ (p.x = q.x ∧ p.y < q.y) ∨
        (p.x = q.x ∧ q.y < p.y) := by
      unfold manh at hm
      omega
    unfold inBounds at hp hq
    unfold manh at hm
    rcases hc with h | h | ⟨h1, h2⟩ | ⟨h1, h2⟩
    · refine ReachN.cons (q := ⟨p.x + 1, p.y⟩)
        ⟨show inBounds p.x p.y from by unfold inBounds; omega, hnw _ _⟩
        (show ((p.x + 1) - p.x).natAbs + (p.y - p.y).natAbs = 1 from by omega)
        (ih _ q (show inBounds (p.x + 1) p.y from by unfold inBounds; omega)
          (by unfold inBounds; omega)
          (show ((p.x + 1) - q.x).natAbs + (p.y - q.y).natAbs = k from by omega))
    · refine ReachN.cons (q := ⟨p.x - 1, p.y⟩)
        ⟨show inBounds p.x p.y from by unfold inBounds; omega, hnw _ _⟩
        (show ((p.x - 1) - p.x).natAbs + (p.y - p.y).natAbs = 1 from by omega)
        (ih _ q (show inBounds (p.x - 1) p.y from by unfold inBounds; omega)
          (by unfold inBounds; omega)
          (show ((p.x - 1) - q.x).natAbs + (p.y - q.y).natAbs = k from by omega))
    · refine ReachN.cons (q := ⟨p.x, p.y + 1⟩)
        ⟨show inBounds p.x p.y from by unfold inBounds; omega, hnw _ _⟩
        (show (p.x - p.x).natAbs + ((p.y + 1) - p.y).natAbs = 1 from by omega)
        (ih _ q (show inBounds p.x (p.y + 1) from by unfold inBounds; omega)
          (by unfold inBounds; omega)
          (show (p.x - q.x).natAbs + ((p.y + 1) - q.y).natAbs = k from by omega))
    · refine ReachN.cons (q := ⟨p.x, p.y - 1⟩)
        ⟨show inBounds p.x p.y from by unfold inBounds; omega, hnw _ _⟩
        (show (p.x - p.x).natAbs + ((p.y - 1) - p.y).natAbs = 1 from by omega)
        (ih _ q (show inBounds p.x (p.y - 1) from by unfold inBounds; omega)
          (by unfold inBounds; omega)
          (show (p.x - q.x).natAbs + ((p.y - 1) - q.y).natAbs = k from by omega))

theorem gdist_no_walls {grid : Grid} (hnw : ∀ b a, grid b a ≠ 1)
    {p q : Point} (hp : inBounds p.x p.y) (hq : inBounds q.x q.y) :
    gdist grid p q = manh p q := by
  apply le_antisymm
  · exact gdist_le (no_walls_reach hnw (manh p q) p q hp hq rfl)
  · exact manh_le_gdist ⟨_, no_walls_reach hnw (manh p q) p q hp hq rfl⟩

/-- On a grid containing no walls, findPath returns a path of exactly
Manhattan distance + 1 nodes for every in-bounds start and goal. -/
theorem findPath_no_walls_length {grid : Grid} (hnw : ∀ b a, grid b a ≠ 1)
    {sx sy gx gy : Int} (hs : inBounds sx sy) (hg : inBounds gx gy) :
    (findPath grid sx sy gx gy).length =
      (sx - gx).natAbs + (sy - gy).natAbs + 1 := by
  have hstart : OpenCell grid ⟨sx, sy⟩ := ⟨hs, hnw _ _⟩
  have hreach : Reachable grid ⟨sx, sy⟩ ⟨gx, gy⟩ :=
    ⟨_, no_walls_reach hnw (manh ⟨sx, sy⟩ ⟨gx, gy⟩) _ _ hs hg rfl⟩
  have hcard : unvisCount (fun _ _ => false) <
      gridSize.toNat * gridSize.toNat + 1 := by
    have h1 : unvisCount (fun _ _ => false) ≤ cellFinset.card :=
      Finset.card_filter_le _ _
    rw [cellFinset_card] at h1
    have h2 : gridSize.toNat * gridSize.toNat + 1 = 101 := rfl
    omega
  have hlen := findPathLoop_length hstart hreach
    (gridSize.toNat * gridSize.toNat + 1) [Node.mk sx sy 0 0 0 none]
    (fun _ _ => false) (findPath_initInv hs) hcard
  have hlen2 : (findPath grid sx sy gx gy).length =
      gdist grid ⟨sx, sy⟩ ⟨gx, gy⟩ + 1 := hlen
  rw [hlen2, gdist_no_walls hnw hs hg]
  rfl

/- ----------------------------------------------------------------
   The claims. -/

/-- Claim C1: Solvability — for every level number and every outcome of
the random choices (the goal-resampling draws and the maze generator's
output), after level generation completes (the generator runs, the start
and goal cells are cleared, and the validatePath repair step runs),
findPath invoked on the resulting grid from the start (0,0) to the goal
returns a non-empty path. -/
theorem C1_solvability {level : Int} {draws : List (Fin 8 × Fin 8)}
    {maze : Grid} {g : Grid} {goal : Point}
    (h : generateGrid level draws maze = some (g, goal)) :
    findPath g 0 0 goal.x goal.y ≠ [] := by
  unfold generateGrid at h
  split at h
  · exact absurd h (by simp)
  · rename_i goal2 heq
    have h2 := Option.some.inj h
    have hg : generateGridCore goal2 maze = g := congrArg Prod.fst h2
    have hgoal : goal2 = goal := congrArg Prod.snd h2
    subst hg
    subst hgoal
    obtain ⟨hx, hx2, hy, hy2⟩ := goalForLevel_inBounds heq
    exact generateGridCore_solvable hx hx2 hy hy2

/-- Witness for C1: level 1 with exhausted draws and an all-walls
generator outcome. -/
theorem C1_solvability_witness :
    generateGrid 1 [] (fun _ _ => 1) =
      some (generateGridCore ⟨4, 4⟩ (fun _ _ => 1), ⟨4, 4⟩) ∧
    findPath (generateGridCore ⟨4, 4⟩ (fun _ _ => 1)) 0 0
      (⟨4, 4⟩ : Point).x (⟨4, 4⟩ : Point).y ≠ [] := by
  have h : generateGrid 1 [] (fun _ _ => 1) =
      some (generateGridCore ⟨4, 4⟩ (fun _ _ => 1), ⟨4, 4⟩) := rfl
  exact ⟨h, C1_solvability h⟩

/-- Claim C2: Manhattan optimality — on a grid containing no walls,
findPath returns a path of exactly |start.x−goal.x| + |start.y−goal.y| + 1
nodes for every in-bounds start and goal. -/
theorem C2_manhattan {grid : Grid} (hnw : ∀ y x : Int, grid y x ≠ 1)
    {sx sy gx gy : Int} (hs : inBounds sx sy) (hg : inBounds gx gy) :
    (findPath grid sx sy gx gy).length =
      (sx - gx).natAbs + (sy - gy).natAbs + 1 :=
  findPath_no_walls_length hnw hs hg

/-- Witness for C2: empty grid, start (0,0), goal (2,1), path of 4
nodes. -/
theorem C2_manhattan_witness :
    (∀ y x : Int, emptyGrid y x ≠ 1) ∧ inBounds (0 : Int) 0 ∧
    inBounds (2 : Int) 1 ∧ (findPath emptyGrid 0 0 2 1).length = 4 := by
  have hnw : ∀ y x : Int, emptyGrid y x ≠ 1 := by
    intro y x h
    exact absurd h (by unfold emptyGrid; omega)
  refine ⟨hnw, by decide, by decide, ?_⟩
  rw [C2_manhattan hnw (by decide) (by decide)]
  decide

/-- Claim C3, counterexample: on a grid whose cell (0,0) is a Wall,
findPath from (0,0) to (0,0) returns the non-empty sequence [(0,0)], and
its position (0,0) is a Wall cell — findPath never checks the start
cell, so the claim as stated fails. -/
theorem C3_counterexample :
    (⟨0, 0⟩ : Point) ∈
      findPath (fun y x => if y = 0 ∧ x = 0 then 1 else 0) 0 0 0 0 ∧
    (fun y x : Int => if y = 0 ∧ x = 0 then (1 : Nat) else 0) 0 0 = 1 := by
  constructor
  · decide
  · decide

/-- Claim C3 (amended): whenever findPath returns a non-empty sequence,
it begins at the start position, ends at the goal position, every
consecutive pair differs by exactly one orthogonal step, and every
position after the first is inside the grid bounds and not a Wall cell;
the first position is the start itself, whose cell findPath does not
check. -/
theorem C3_wellformed {grid : Grid} {sx sy gx gy : Int}
    (hne : findPath grid sx sy gx gy ≠ []) :
    (findPath grid sx sy gx gy).head? = some ⟨sx, sy⟩ ∧
    (findPath grid sx sy gx gy).getLast? = some ⟨gx, gy⟩ ∧
    List.Chain' adjacent (findPath grid sx sy gx gy) ∧
    ∀ p ∈ (findPath grid sx sy gx gy).tail,
      inBounds p.x p.y ∧ grid p.y p.x ≠ 1 := by
  obtain ⟨h1, h2, h3, h4⟩ := findPath_wellFormed hne
  exact ⟨h1, h2, h3, fun p hp => h4 p hp⟩

/-- Witness for C3 (amended) on the empty grid from (0,0) to (1,0). -/
theorem C3_wellformed_witness :
    findPath emptyGrid 0 0 1 0 ≠ [] ∧
    ((findPath emptyGrid 0 0 1 0).head? = some ⟨0, 0⟩ ∧
    (findPath emptyGrid 0 0 1 0).getLast? = some ⟨1, 0⟩ ∧
    List.Chain' adjacent (findPath emptyGrid 0 0 1 0) ∧
    ∀ p ∈ (findPath emptyGrid 0 0 1 0).tail,
      inBounds p.x p.y ∧ emptyGrid p.y p.x ≠ 1) :=
  ⟨by decide, C3_wellformed (by decide)⟩

/-- Claim C4: Bounds invariant — after every level generation, for every
level number and every outcome of the random choices, the start cell
(0,0) and the goal cell of the produced grid are Open. -/
theorem C4_bounds {level : Int} {draws : List (Fin 8 × Fin 8)}
    {maze : Grid} {g : Grid} {goal : Point}
    (h : generateGrid level draws maze = some (g, goal)) :
    g 0 0 = 0 ∧ g goal.y goal.x = 0 := by
  unfold generateGrid at h
  split at h
  · exact absurd h (by simp)
  · have h2 := Option.some.inj h
    have hg : generateGridCore _ maze = g := congrArg Prod.fst h2
    have hgoal := congrArg Prod.snd h2
    subst hg
    subst hgoal
    exact generateGridCore_open

/-- Witness for C4: level 2 with an all-walls generator outcome. -/
theorem C4_bounds_witness :
    generateGrid 2 [] (fun _ _ => 1) =
      some (generateGridCore ⟨gridSize - 2, 2⟩ (fun _ _ => 1),
        ⟨gridSize - 2, 2⟩) ∧
    (generateGridCore ⟨gridSize - 2, 2⟩ (fun _ _ => 1) 0 0 = 0 ∧
      generateGridCore ⟨gridSize - 2, 2⟩ (fun _ _ => 1)
        (⟨gridSize - 2, 2⟩ : Point).y (⟨gridSize - 2, 2⟩ : Point).x = 0) := by
  have h : generateGrid 2 [] (fun _ _ => 1) =
      some (generateGridCore ⟨gridSize - 2, 2⟩ (fun _ _ => 1),
        ⟨gridSize - 2, 2⟩) := rfl
  exact ⟨h, C4_bounds h⟩

/-- Claim C5: wall collision semantics — in a Playing state (whose lives
are at least 1, as in every reachable Playing state), a move whose
in-bounds candidate cell is a Wall leaves the player position unchanged,
decrements lives by exactly 1, decreases the score by exactly the death
penalty, and transitions to GameOver if and only if lives thereby
reach 0. -/
theorem C5_wall_collision {draws : List (Fin 8 × Fin 8)} {maze : Grid}
    {s : GameState} {dir : Dir}
    (hplay : s.isPlaying = true) (hgo : s.isGameOver = false)
    (hlives : 1 ≤ s.lives)
    (hin : inBounds (stepDir s.playerPosition dir).x
      (stepDir s.playerPosition dir).y)
    (hwall : s.grid (stepDir s.playerPosition dir).y
      (stepDir s.playerPosition dir).x = 1) :
    handleMovement draws maze s dir = some (handleCollision s) ∧
    (handleCollision s).playerPosition = s.playerPosition ∧
    (handleCollision s).lives = s.lives - 1 ∧
    (handleCollision s).score = s.score - deathPenalty ∧
    ((handleCollision s).isGameOver = true ↔ s.lives - 1 = 0) := by
  refine ⟨handleMovement_wall hplay hgo hin hwall,
    (handleCollision_fields s).1, (handleCollision_fields s).2.2.2.1,
    (handleCollision_fields s).2.2.2.2, ?_⟩
  rw [handleCollision_gameOver_iff hgo]
  omega

/-- Witness for C5: player at (0,0) moving right into a wall at (1,0)
with 3 lives. -/
theorem C5_wall_collision_witness :
    (1 : Int) ≤ 3 ∧
    (handleMovement [] (fun _ _ => 0)
        { score := 1000, lives := 3, level := 1, isGameOver := false,
          isPlaying := true,
          grid := fun y x => if y = 0 ∧ x = 1 then 1 else 0,
          visitedTiles := [(0, 0)], playerPosition := ⟨0, 0⟩,
          goalPosition := ⟨4, 4⟩ } Dir.right =
      some (handleCollision
        { score := 1000, lives := 3, level := 1, isGameOver := false,
          isPlaying := true,
          grid := fun y x => if y = 0 ∧ x = 1 then 1 else 0,
          visitedTiles := [(0, 0)], playerPosition := ⟨0, 0⟩,
          goalPosition := ⟨4, 4⟩ }) ∧
    (handleCollision
        { score := 1000, lives := 3, level := 1, isGameOver := false,
          isPlaying := true,
          grid := fun y x => if y = 0 ∧ x = 1 then 1 else 0,
          visitedTiles := [(0, 0)], playerPosition := ⟨0, 0⟩,
          goalPosition := ⟨4, 4⟩ }).playerPosition = ⟨0, 0⟩ ∧
    (handleCollision
        { score := 1000, lives := 3, level := 1, isGameOver := false,
          isPlaying := true,
          grid := fun y x => if y = 0 ∧ x = 1 then 1 else 0,
          visitedTiles := [(0, 0)], playerPosition := ⟨0, 0⟩,
          goalPosition := ⟨4, 4⟩ }).lives = 3 - 1 ∧
    (handleCollision
        { score := 1000, lives := 3, level := 1, isGameOver := false,
          isPlaying := true,
          grid := fun y x => if y = 0 ∧ x = 1 then 1 else 0,
          visitedTiles := [(0, 0)], playerPosition := ⟨0, 0⟩,
          goalPosition := ⟨4, 4⟩ }).score = 1000 - deathPenalty ∧
    ((handleCollision
        { score := 1000, lives := 3, level := 1, isGameOver := false,
          isPlaying := true,
          grid := fun y x => if y = 0 ∧ x = 1 then 1 else 0,
          visitedTiles := [(0, 0)], playerPosition := ⟨0, 0⟩,
          goalPosition := ⟨4, 4⟩ }).isGameOver = true ↔ (3 : Int) - 1 = 0)) :=
  ⟨by decide,
    C5_wall_collision rfl rfl (by decide) (by decide) (by decide)⟩

/-- Claim C6: revisit rejection atomicity — in a Playing state with
level ≥ 2, a move whose candidate cell is in bounds, Open and already in
the visited set is rejected with no change at all to the game state
(player position, score, lives and visited set included). -/
theorem C6_revisit {draws : List (Fin 8 × Fin 8)} {maze : Grid}
    {s : GameState} {dir : Dir}
    (hplay : s.isPlaying = true) (hgo : s.isGameOver = false)
    (hlevel : 2 ≤ s.level)
    (hin : inBounds (stepDir s.playerPosition dir).x
      (stepDir s.playerPosition dir).y)
    (hopen : s.grid (stepDir s.playerPosition dir).y
      (stepDir s.playerPosition dir).x = 0)
    (hvis : ((stepDir s.playerPosition dir).x,
      (stepDir s.playerPosition dir).y) ∈ s.visitedTiles) :
    handleMovement draws maze s dir = some s :=
  handleMovement_revisit hplay hgo hlevel hin hopen hvis

/-- Witness for C6: at level 2, moving right from (0,0) onto the open,
already-visited cell (1,0) leaves the state unchanged. -/
theorem C6_revisit_witness :
    (2 : Int) ≤ 2 ∧
    handleMovement [] (fun _ _ => 0)
      { score := 980, lives := 3, level := 2, isGameOver := false,
        isPlaying := true, grid := fun _ _ => 0,
        visitedTiles := [(1, 0), (0, 0)], playerPosition := ⟨0, 0⟩,
        goalPosition := ⟨8, 2⟩ } Dir.right =
      some
        { score := 980, lives := 3, level := 2, isGameOver := false,
          isPlaying := true, grid := fun _ _ => 0,
          visitedTiles := [(1, 0), (0, 0)], playerPosition := ⟨0, 0⟩,
          goalPosition := ⟨8, 2⟩ } :=
  ⟨by decide,
    C6_revisit rfl rfl (by decide) (by decide) (by decide) (by decide)⟩

/-- Claim C7: repair monotonicity — for every grid and every start/goal
pair, validatePath never changes a cell from Open to Wall (every cell
Open before the call is still Open after it); whenever it changes a
cell, it opens it, and only on the L-shaped corridor from start to
goal. -/
theorem C7_repair_monotone (grid : Grid) (sx sy ex ey x y : Int) :
    (grid y x = 0 → validatePath grid sx sy ex ey y x = 0) ∧
    (validatePath grid sx sy ex ey y x = grid y x ∨
      (validatePath grid sx sy ex ey y x = 0 ∧
        OnCorridor sx sy ex ey x y)) :=
  ⟨fun h => validatePath_preserves0 h, validatePath_or sx sy ex ey y x⟩

/-- Witness for C7 on the empty grid. -/
theorem C7_repair_monotone_witness :
    emptyGrid 5 5 = 0 ∧ validatePath emptyGrid 0 0 1 0 5 5 = 0 :=
  ⟨by decide, (C7_repair_monotone emptyGrid 0 0 1 0 5 5).1 (by decide)⟩

/-- Claim C8: GameOver is terminal — once the state is GameOver, no
sequence of direction events changes it at all (player position, score,
lives and level included), until an explicit restart, which resets the
state to Playing at level 1 with the initial score and lives. -/
theorem C8_gameOver_terminal {draws draws2 : List (Fin 8 × Fin 8)}
    {maze maze2 : Grid} {s s2 s3 : GameState} {dirs : List Dir} :
    (s.isGameOver = true → applyEvents draws maze s dirs = some s) ∧
    (restartGame draws2 maze2 s2 = some s3 →
      s3.isPlaying = true ∧ s3.isGameOver = false ∧ s3.level = 1 ∧
      s3.score = initialScore ∧ s3.lives = initialLives) := by
  constructor
  · intro h
    exact applyEvents_gameOver h dirs
  · intro h
    obtain ⟨h1, h2, h3, h4, h5, _⟩ := restartGame_spec h
    exact ⟨h1, h2, h3, h4, h5⟩

/-- Witness for C8: a game-over state ignores a list of events, and a
restart resets the bookkeeping fields. -/
theorem C8_gameOver_terminal_witness :
    ({ score := -40, lives := 0, level := 3, isGameOver := true,
       isPlaying := false, grid := fun _ _ => 0, visitedTiles := [(0, 0)],
       playerPosition := ⟨2, 3⟩, goalPosition := ⟨2, 8⟩ } :
         GameState).isGameOver = true ∧
    applyEvents [] (fun _ _ => 0)
      { score := -40, lives := 0, level := 3, isGameOver := true,
        isPlaying := false, grid := fun _ _ => 0, visitedTiles := [(0, 0)],
        playerPosition := ⟨2, 3⟩, goalPosition := ⟨2, 8⟩ }
      [Dir.up, Dir.left, Dir.down] =
      some
        { score := -40, lives := 0, level := 3, isGameOver := true,
          isPlaying := false, grid := fun _ _ => 0, visitedTiles := [(0, 0)],
          playerPosition := ⟨2, 3⟩, goalPosition := ⟨2, 8⟩ } ∧
    restartGame [] (fun _ _ => 0)
      { score := -40, lives := 0, level := 3, isGameOver := true,
        isPlaying := false, grid := fun _ _ => 0, visitedTiles := [(0, 0)],
        playerPosition := ⟨2, 3⟩, goalPosition := ⟨2, 8⟩ } =
      some
        { score := 1000, lives := 3, level := 1, isGameOver := false,
          isPlaying := true,
          grid := generateGridCore ⟨4, 4⟩ (fun _ _ => 0),
          visitedTiles := [(0, 0)], playerPosition := ⟨0, 0⟩,
          goalPosition := ⟨4, 4⟩ } ∧
    ({ score := 1000, lives := 3, level := 1, isGameOver := false,
       isPlaying := true,
       grid := generateGridCore ⟨4, 4⟩ (fun _ _ => 0),
       visitedTiles := [(0, 0)], playerPosition := ⟨0, 0⟩,
       goalPosition := ⟨4, 4⟩ } : GameState).isPlaying = true ∧
    ({ score := 1000, lives := 3, level := 1, isGameOver := false,
       isPlaying := true,
       grid := generateGridCore ⟨4, 4⟩ (fun _ _ => 0),
       visitedTiles := [(0, 0)], playerPosition := ⟨0, 0⟩,
       goalPosition := ⟨4, 4⟩ } : GameState).level = 1 := by
  have hgo := @C8_gameOver_terminal [] [] (fun _ _ => 0) (fun _ _ => 0)
    { score := -40, lives := 0, level := 3, isGameOver := true,
      isPlaying := false, grid := fun _ _ => 0, visitedTiles := [(0, 0)],
      playerPosition := ⟨2, 3⟩, goalPosition := ⟨2, 8⟩ }
    { score := -40, lives := 0, level := 3, isGameOver := true,
      isPlaying := false, grid := fun _ _ => 0, visitedTiles := [(0, 0)],
      playerPosition := ⟨2, 3⟩, goalPosition := ⟨2, 8⟩ }
    { score := 1000, lives := 3, level := 1, isGameOver := false,
      isPlaying := true,
      grid := generateGridCore ⟨4, 4⟩ (fun _ _ => 0),
      visitedTiles := [(0, 0)], playerPosition := ⟨0, 0⟩,
      goalPosition := ⟨4, 4⟩ }
    [Dir.up, Dir.left, Dir.down]
  refine ⟨rfl, hgo.1 rfl, rfl, (hgo.2 rfl).1, (hgo.2 rfl).2.2.1⟩

/-- Claim C9: goal placement distance — for every level ≥ 5 and every
outcome of the random resampling, the goal chosen by generateGrid has
Manhattan distance at least minDistance = ⌊N·0.6⌋ = 6 from the start
(0,0). -/
theorem C9_goal_distance {level : Int} {draws : List (Fin 8 × Fin 8)}
    {maze : Grid} {g : Grid} {goal : Point}
    (hlev : 5 ≤ level) (h : generateGrid level draws maze = some (g, goal)) :
    minDistance ≤
      ((goal.x - startX).natAbs + (goal.y - startY).natAbs : Nat) :=
  generateGrid_goal_dist hlev h

/-- Witness for C9 at level 5 with first draw (7,7), giving goal
(8,8). -/
theorem C9_goal_distance_witness :
    (5 : Int) ≤ 5 ∧
    generateGrid 5 [((7 : Fin 8), (7 : Fin 8))] (fun _ _ => 1) =
      some (generateGridCore ⟨8, 8⟩ (fun _ _ => 1), ⟨8, 8⟩) ∧
    minDistance ≤
      (((⟨8, 8⟩ : Point).x - startX).natAbs +
        ((⟨8, 8⟩ : Point).y - startY).natAbs : Nat) := by
  have h : generateGrid 5 [((7 : Fin 8), (7 : Fin 8))] (fun _ _ => 1) =
      some (generateGridCore ⟨8, 8⟩ (fun _ _ => 1), ⟨8, 8⟩) := rfl
  exact ⟨by decide, h, C9_goal_distance (by decide) h⟩

/-- Claim C10: the start cell is unrevisitable — generateLevel inserts
(0,0) into the visited set before any move; at level ≥ 2 the move
resolver rejects any candidate move onto (0,0) (isValidMove returns
false, and a move towards (0,0) leaves the player position unchanged);
and membership of (0,0) in the visited set survives every subsequent
handleMovement, so the player can never return to the start cell for the
rest of the level. -/
theorem C10_start_unrevisitable :
    (∀ (draws : List (Fin 8 × Fin 8)) (maze : Grid) (s s2 : GameState),
      generateLevel draws maze s = some s2 →
      ((0 : Int), (0 : Int)) ∈ s2.visitedTiles) ∧
    (∀ s : GameState, 2 ≤ s.level →
      ((0 : Int), (0 : Int)) ∈ s.visitedTiles →
      (isValidMove s 0 0).1 = false) ∧
    (∀ (draws : List (Fin 8 × Fin 8)) (maze : Grid) (s s2 : GameState)
      (dir : Dir), 2 ≤ s.level →
      ((0 : Int), (0 : Int)) ∈ s.visitedTiles →
      stepDir s.playerPosition dir = ⟨0, 0⟩ →
      handleMovement draws maze s dir = some s2 →
      s2.playerPosition = s.playerPosition) ∧
    (∀ (draws : List (Fin 8 × Fin 8)) (maze : Grid) (s s2 : GameState)
      (dir : Dir), ((0 : Int), (0 : Int)) ∈ s.visitedTiles →
      handleMovement draws maze s dir = some s2 →
      ((0 : Int), (0 : Int)) ∈ s2.visitedTiles) :=
  ⟨fun _ _ _ _ h => generateLevel_visited h,
   fun _ hl hv => isValidMove_start_rejected hl hv,
   fun _ _ _ _ _ hl hv hs h => handleMovement_to_start hl hv hs h,
   fun _ _ _ _ _ hv h => handleMovement_keeps_visited hv h⟩

/-- Witness for C10 on a concrete level-2 state whose player stands at
(0,1) and moves up towards the start cell (0,0). -/
theorem C10_start_unrevisitable_witness :
    generateLevel [] (fun _ _ => 0)
      { score := 980, lives := 3, level := 2, isGameOver := false,
        isPlaying := true, grid := fun _ _ => 0,
        visitedTiles := [(0, 1), (0, 0)], playerPosition := ⟨0, 1⟩,
        goalPosition := ⟨8, 2⟩ } =
      some
        { score := 980, lives := 3, level := 2, isGameOver := false,
          isPlaying := true,
          grid := generateGridCore ⟨8, 2⟩ (fun _ _ => 0),
          visitedTiles := [(0, 0)], playerPosition := ⟨0, 0⟩,
          goalPosition := ⟨8, 2⟩ } ∧
    ((0 : Int), (0 : Int)) ∈ [((0 : Int), (0 : Int))] ∧
    (isValidMove
      { score := 980, lives := 3, level := 2, isGameOver := false,
        isPlaying := true, grid := fun _ _ => 0,
        visitedTiles := [(0, 1), (0, 0)], playerPosition := ⟨0, 1⟩,
        goalPosition := ⟨8, 2⟩ } 0 0).1 = false ∧
    handleMovement [] (fun _ _ => 0)
      { score := 980, lives := 3, level := 2, isGameOver := false,
        isPlaying := true, grid := fun _ _ => 0,
        visitedTiles := [(0, 1), (0, 0)], playerPosition := ⟨0, 1⟩,
        goalPosition := ⟨8, 2⟩ } Dir.up =
      some
        { score := 980, lives := 3, level := 2, isGameOver := false,
          isPlaying := true, grid := fun _ _ => 0,
          visitedTiles := [(0, 1), (0, 0)], playerPosition := ⟨0, 1⟩,
          goalPosition := ⟨8, 2⟩ } ∧
    ({ score := 980, lives := 3, level := 2, isGameOver := false,
       isPlaying := true, grid := fun _ _ => 0,
       visitedTiles := [(0, 1), (0, 0)], playerPosition := ⟨0, 1⟩,
       goalPosition := ⟨8, 2⟩ } : GameState).playerPosition = ⟨0, 1⟩ ∧
    ((0 : Int), (0 : Int)) ∈
      ([(0, 1), (0, 0)] : List (Int × Int)) := by
  obtain ⟨h1, h2, h3, h4⟩ := C10_start_unrevisitable
  have hgen : generateLevel [] (fun _ _ => 0)
      { score := 980, lives := 3, level := 2, isGameOver := false,
        isPlaying := true, grid := fun _ _ => 0,
        visitedTiles := [(0, 1), (0, 0)], playerPosition := ⟨0, 1⟩,
        goalPosition := ⟨8, 2⟩ } =
      some
        { score := 980, lives := 3, level := 2, isGameOver := false,
          isPlaying := true,
          grid := generateGridCore ⟨8, 2⟩ (fun _ _ => 0),
          visitedTiles := [(0, 0)], playerPosition := ⟨0, 0⟩,
          goalPosition := ⟨8, 2⟩ } := rfl
  have hmove : handleMovement [] (fun _ _ => 0)
      { score := 980, lives := 3, level := 2, isGameOver := false,
        isPlaying := true, grid := fun _ _ => 0,
        visitedTiles := [(0, 1), (0, 0)], playerPosition := ⟨0, 1⟩,
        goalPosition := ⟨8, 2⟩ } Dir.up =
      some
        { score := 980, lives := 3, level := 2, isGameOver := false,
          isPlaying := true, grid := fun _ _ => 0,
          visitedTiles := [(0, 1), (0, 0)], playerPosition := ⟨0, 1⟩,
          goalPosition := ⟨8, 2⟩ } := by
    exact handleMovement_revisit rfl rfl (by decide) (by decide)
      (by decide) (by decide)
  refine ⟨hgen, h1 [] (fun _ _ => 0) _ _ hgen, ?_, hmove, ?_, ?_⟩
  · exact h2 _ (by decide) (by decide)
  · exact h3 [] (fun _ _ => 0) _ _ Dir.up (by decide) (by decide)
      (by decide) hmove
  · exact h4 [] (fun _ _ => 0) _ _ Dir.up (by decide) hmove

end GridRush
